import Mathlib

/-!
Verification of the CinderBox2D broad-phase dynamic AABB tree
(src/CinderBox2D/Collision/cb2DynamicTree.h) and the contact-type
registry (src/CinderBox2D/Dynamics/Contacts/cb2Contact.cpp).

The C++ code is shallowly embedded: machine floats become rationals,
the node pool becomes a list of nodes addressed by integer index, the
two explicit-stack traversals become fuel-indexed recursive functions
returning the ordered list of callback invocations (`none` signals a
failed precondition assertion or fuel exhaustion), and the contact
registry becomes a function from shape-type pairs to register entries.
-/

/-- Modelled from the spec: 2-D vector (ci::Vec2f, from the Cinder math
library which is not part of this repository); float components are
modelled as rationals. -/
structure Vec2 where
  x : ℚ
  y : ℚ
deriving DecidableEq

def Vec2.add (a b : Vec2) : Vec2 := ⟨a.x + b.x, a.y + b.y⟩

def Vec2.sub (a b : Vec2) : Vec2 := ⟨a.x - b.x, a.y - b.y⟩

def Vec2.smul (s : ℚ) (a : Vec2) : Vec2 := ⟨s * a.x, s * a.y⟩

def Vec2.lengthSquared (a : Vec2) : ℚ := a.x * a.x + a.y * a.y

/-- Modelled from the spec: dot product of two vectors (cb2Dot in
cb2Math.h, not part of this repository). -/
def cb2Dot (a b : Vec2) : ℚ := a.x * b.x + a.y * b.y

/-- Modelled from the spec: scalar cross product, a vector perpendicular
to the argument (cb2Cross(float, Vec2) in cb2Math.h, not part of this
repository): cb2Cross(s, a) = (-s * a.y, s * a.x). -/
def cb2CrossSV (s : ℚ) (a : Vec2) : Vec2 := ⟨-s * a.y, s * a.x⟩

/-- Modelled from the spec: componentwise absolute value (cb2Abs). -/
def cb2Abs (a : Vec2) : Vec2 := ⟨|a.x|, |a.y|⟩

/-- Modelled from the spec: componentwise minimum (cb2Min). -/
def cb2Min (a b : Vec2) : Vec2 := ⟨min a.x b.x, min a.y b.y⟩

/-- Modelled from the spec: componentwise maximum (cb2Max). -/
def cb2Max (a b : Vec2) : Vec2 := ⟨max a.x b.x, max a.y b.y⟩

/-- Modelled from the spec: axis-aligned bounding box, represented by
lower and upper corner points (cb2AABB in cb2Collision.h, not part of
this repository). -/
structure cb2AABB where
  lowerBound : Vec2
  upperBound : Vec2
deriving DecidableEq

/-- Modelled from the spec: center of an AABB
(cb2AABB::GetCenter = 0.5 * (lowerBound + upperBound)). -/
def cb2AABB.GetCenter (a : cb2AABB) : Vec2 :=
  Vec2.smul (1/2) (Vec2.add a.lowerBound a.upperBound)

/-- Modelled from the spec: half-extents of an AABB
(cb2AABB::GetExtents = 0.5 * (upperBound - lowerBound)). -/
def cb2AABB.GetExtents (a : cb2AABB) : Vec2 :=
  Vec2.smul (1/2) (Vec2.sub a.upperBound a.lowerBound)

/-- Modelled from the spec: the box-vs-box overlap test used for pruning
(cb2TestOverlap in cb2Collision.h, not part of this repository): the
boxes are disjoint iff some component of b.lowerBound - a.upperBound or
of a.lowerBound - b.upperBound is positive. -/
def cb2TestOverlap (a b : cb2AABB) : Bool :=
  let d1 := Vec2.sub b.lowerBound a.upperBound
  let d2 := Vec2.sub a.lowerBound b.upperBound
  if 0 < d1.x ∨ 0 < d1.y then false
  else if 0 < d2.x ∨ 0 < d2.y then false
  else true

/-- The null node index, cb2_nullNode = -1. -/
def cb2_nullNode : Int := -1

/-- A node in the dynamic tree (cb2TreeNode). The C++ union of parent
and next is a single integer field; userData (a void pointer) is an
opaque integer handle. -/
structure cb2TreeNode where
  aabb : cb2AABB
  userData : Int
  /-- parent when live, next free index when on the free list -/
  parent : Int
  child1 : Int
  child2 : Int
  /-- leaf = 0, free node = -1 -/
  height : Int
deriving DecidableEq

/-- cb2TreeNode::IsLeaf: a node is a leaf iff child1 == cb2_nullNode. -/
def cb2TreeNode.IsLeaf (n : cb2TreeNode) : Bool :=
  n.child1 == cb2_nullNode

/-- Out-of-pool default node, returned by the total pool lookup for an
index outside the pool (the C++ dereference would be undefined there;
every verified path guards the lookup by a validity test first). -/
def dfltNode : cb2TreeNode :=
  ⟨⟨⟨0, 0⟩, ⟨0, 0⟩⟩, 0, -1, -1, -1, -1⟩

/-- The dynamic AABB tree state (cb2DynamicTree): node pool plus root
index, free-list head and counters. The pool array m_nodes is a list
whose length is m_nodeCapacity. -/
structure cb2DynamicTree where
  m_root : Int
  m_nodes : List cb2TreeNode
  m_nodeCount : Int
  m_freeList : Int
  m_path : Nat
  m_insertionCount : Int
deriving DecidableEq

/-- m_nodeCapacity: the size of the node pool. -/
def cb2DynamicTree.m_nodeCapacity (t : cb2DynamicTree) : Int :=
  (t.m_nodes.length : Int)

/-- Pool lookup m_nodes[i], total: out-of-pool indices give dfltNode. -/
def cb2DynamicTree.node (t : cb2DynamicTree) (i : Int) : cb2TreeNode :=
  if h : 0 ≤ i ∧ i.toNat < t.m_nodes.length then
    t.m_nodes.get ⟨i.toNat, h.2⟩
  else dfltNode

/-- cb2DynamicTree::GetUserData: asserts 0 <= proxyId < m_nodeCapacity
(assertion failure is modelled as `none`), then returns
m_nodes[proxyId].userData. -/
def cb2DynamicTree.GetUserData (t : cb2DynamicTree) (proxyId : Int) : Option Int :=
  if 0 ≤ proxyId ∧ proxyId < t.m_nodeCapacity then
    some (t.node proxyId).userData
  else none

/-- cb2DynamicTree::GetFatAABB: asserts 0 <= proxyId < m_nodeCapacity
(assertion failure is modelled as `none`), then returns
m_nodes[proxyId].aabb. -/
def cb2DynamicTree.GetFatAABB (t : cb2DynamicTree) (proxyId : Int) : Option cb2AABB :=
  if 0 ≤ proxyId ∧ proxyId < t.m_nodeCapacity then
    some (t.node proxyId).aabb
  else none

/-- The loop of cb2DynamicTree::Query. The explicit growable stack is a
list with its head as top (Push is cons, Pop takes the head); the
callback is the visitor's QueryCallback; acc records the node indices
passed to the callback, most recent first. The fuel argument bounds the
number of loop iterations; exhaustion yields `none`. A popped null
index is skipped; a node overlapping the query box is either a leaf, in
which case the callback runs and a false return ends the traversal, or
an internal node, whose children are pushed (child1 first, so child2 is
popped first). -/
def queryRun (t : cb2DynamicTree) (cb : Int → Bool) (aabb : cb2AABB) :
    Nat → List Int → List Int → Option (List Int)
  | _, [], acc => some acc.reverse
  | 0, _ :: _, _ => none
  | fuel+1, nodeId :: rest, acc =>
    if nodeId = cb2_nullNode then
      queryRun t cb aabb fuel rest acc
    else
      if cb2TestOverlap (t.node nodeId).aabb aabb then
        if (t.node nodeId).IsLeaf then
          if cb nodeId then
            queryRun t cb aabb fuel rest (nodeId :: acc)
          else
            some ((nodeId :: acc)).reverse
        else
          queryRun t cb aabb fuel
            ((t.node nodeId).child2 :: (t.node nodeId).child1 :: rest) acc
      else
        queryRun t cb aabb fuel rest acc

/-- cb2DynamicTree::Query: run the traversal loop from a stack holding
only m_root. -/
def cb2DynamicTree.Query (t : cb2DynamicTree) (cb : Int → Bool) (aabb : cb2AABB)
    (fuel : Nat) : Option (List Int) :=
  queryRun t cb aabb fuel [t.m_root] []

/-- The Query loop with the tree state threaded through every step, as
the statement-by-statement translation of the const C++ method: no
statement of the loop stores into the tree, so each recursive call
passes the state on unchanged. -/
def queryRunSt (cb : Int → Bool) (aabb : cb2AABB) :
    cb2DynamicTree → Nat → List Int → List Int →
      cb2DynamicTree × Option (List Int)
  | t, _, [], acc => (t, some acc.reverse)
  | t, 0, _ :: _, _ => (t, none)
  | t, fuel+1, nodeId :: rest, acc =>
    if nodeId = cb2_nullNode then
      queryRunSt cb aabb t fuel rest acc
    else
      if cb2TestOverlap (t.node nodeId).aabb aabb then
        if (t.node nodeId).IsLeaf then
          if cb nodeId then
            queryRunSt cb aabb t fuel rest (nodeId :: acc)
          else
            (t, some ((nodeId :: acc)).reverse)
        else
          queryRunSt cb aabb t fuel
            ((t.node nodeId).child2 :: (t.node nodeId).child1 :: rest) acc
      else
        queryRunSt cb aabb t fuel rest acc

/-- State-threaded cb2DynamicTree::Query. -/
def cb2DynamicTree.QuerySt (t : cb2DynamicTree) (cb : Int → Bool) (aabb : cb2AABB)
    (fuel : Nat) : cb2DynamicTree × Option (List Int) :=
  queryRunSt cb aabb t fuel [t.m_root] []

/-- cb2RayCastInput: ray from p1 to p2, clipped to maxFraction. -/
structure cb2RayCastInput where
  p1 : Vec2
  p2 : Vec2
  maxFraction : ℚ
deriving DecidableEq

/-- The segment bounding box maintained by RayCast for a given max
fraction m: with t = p1 + m * (p2 - p1), the box spans cb2Min p1 t to
cb2Max p1 t. -/
def segAABBOf (p1 p2 : Vec2) (m : ℚ) : cb2AABB :=
  let t := Vec2.add p1 (Vec2.smul m (Vec2.sub p2 p1))
  ⟨cb2Min p1 t, cb2Max p1 t⟩

/-- One callback invocation of a RayCast traversal: the exact subInput
value the code built and passed to the callback, the segment bounding
box in force when the visited node was tested, and the node index. -/
structure RayVisit where
  sub : cb2RayCastInput
  box : cb2AABB
  node : Int
deriving DecidableEq

/-- Default RayVisit, used only as the default of list indexing. -/
def dfltVisit : RayVisit := ⟨⟨⟨0, 0⟩, ⟨0, 0⟩, 0⟩, ⟨⟨0, 0⟩, ⟨0, 0⟩⟩, -1⟩

/-- The separation the RayCast loop computes for a node against the ray
line: |dot(v, p1 - c)| - dot(abs_v, h) with c and h the node box's
center and half-extents (the separating-axis test for the segment,
Gino p80). -/
def raySep (v abs_v p1 : Vec2) (n : cb2TreeNode) : ℚ :=
  |cb2Dot v (Vec2.sub p1 n.aabb.GetCenter)| - cb2Dot abs_v n.aabb.GetExtents

/-- The loop of cb2DynamicTree::RayCast. v and abs_v are the
perpendicular to the ray direction and its componentwise absolute
value, computed once by the caller; maxFraction and segAABB are the
mutable locals of the loop; acc records the callback invocations, most
recent first. A popped node is skipped when null, when its box misses
the current segment box, or when the separating-axis test for the
segment (Gino, p80) separates it from the ray line. A surviving leaf
is passed to the callback with subInput = (input.p1, input.p2, current
maxFraction): a zero return ends the whole traversal, a positive
return v replaces maxFraction and rebuilds the segment box for v, any
other return changes nothing. A surviving internal node pushes its two
children. -/
def rayCastRun (t : cb2DynamicTree) (cb : cb2RayCastInput → Int → ℚ)
    (input : cb2RayCastInput) (v abs_v : Vec2) :
    Nat → List Int → ℚ → cb2AABB → List RayVisit → Option (List RayVisit)
  | _, [], _, _, acc => some acc.reverse
  | 0, _ :: _, _, _, _ => none
  | fuel+1, nodeId :: rest, maxFraction, segAABB, acc =>
    if nodeId = cb2_nullNode then
      rayCastRun t cb input v abs_v fuel rest maxFraction segAABB acc
    else
      if cb2TestOverlap (t.node nodeId).aabb segAABB = false then
        rayCastRun t cb input v abs_v fuel rest maxFraction segAABB acc
      else
        if 0 < raySep v abs_v input.p1 (t.node nodeId) then
          rayCastRun t cb input v abs_v fuel rest maxFraction segAABB acc
        else
          if (t.node nodeId).IsLeaf then
            if cb ⟨input.p1, input.p2, maxFraction⟩ nodeId = 0 then
              some ((⟨⟨input.p1, input.p2, maxFraction⟩, segAABB, nodeId⟩ : RayVisit)
                :: acc).reverse
            else
              if 0 < cb ⟨input.p1, input.p2, maxFraction⟩ nodeId then
                rayCastRun t cb input v abs_v fuel rest
                  (cb ⟨input.p1, input.p2, maxFraction⟩ nodeId)
                  (segAABBOf input.p1 input.p2
                    (cb ⟨input.p1, input.p2, maxFraction⟩ nodeId))
                  ((⟨⟨input.p1, input.p2, maxFraction⟩, segAABB, nodeId⟩ : RayVisit)
                    :: acc)
              else
                rayCastRun t cb input v abs_v fuel rest maxFraction segAABB
                  ((⟨⟨input.p1, input.p2, maxFraction⟩, segAABB, nodeId⟩ : RayVisit)
                    :: acc)
          else
            rayCastRun t cb input v abs_v fuel
              ((t.node nodeId).child2 :: (t.node nodeId).child1 :: rest)
              maxFraction segAABB acc

/-- cb2DynamicTree::RayCast. r = p2 - p1 must be nonzero
(cb2Assert(r.LengthSquared() > 0), modelled as returning `none`);
the source then normalizes r before building the perpendicular v, but
normalization multiplies both sides of the separation comparison by
the same positive factor 1/|r|, so over ℚ the traversal uses the
unnormalized perpendicular with the comparison unchanged. The loop
starts from maxFraction = input.maxFraction, the segment box built
from it, and a stack holding only m_root. -/
def cb2DynamicTree.RayCast (t : cb2DynamicTree) (cb : cb2RayCastInput → Int → ℚ)
    (input : cb2RayCastInput) (fuel : Nat) : Option (List RayVisit) :=
  let p1 := input.p1
  let p2 := input.p2
  let r := Vec2.sub p2 p1
  if 0 < r.lengthSquared then
    let v := cb2CrossSV 1 r
    let abs_v := cb2Abs v
    rayCastRun t cb input v abs_v fuel [t.m_root] input.maxFraction
      (segAABBOf p1 p2 input.maxFraction) []
  else none

/-- The RayCast loop with the tree state threaded through every step,
as the statement-by-statement translation of the const C++ method: no
statement of the loop stores into the tree, so each recursive call
passes the state on unchanged. -/
def rayCastRunSt (cb : cb2RayCastInput → Int → ℚ) (input : cb2RayCastInput)
    (v abs_v : Vec2) :
    cb2DynamicTree → Nat → List Int → ℚ → cb2AABB → List RayVisit →
      cb2DynamicTree × Option (List RayVisit)
  | t, _, [], _, _, acc => (t, some acc.reverse)
  | t, 0, _ :: _, _, _, _ => (t, none)
  | t, fuel+1, nodeId :: rest, maxFraction, segAABB, acc =>
    if nodeId = cb2_nullNode then
      rayCastRunSt cb input v abs_v t fuel rest maxFraction segAABB acc
    else
      if cb2TestOverlap (t.node nodeId).aabb segAABB = false then
        rayCastRunSt cb input v abs_v t fuel rest maxFraction segAABB acc
      else
        if 0 < raySep v abs_v input.p1 (t.node nodeId) then
          rayCastRunSt cb input v abs_v t fuel rest maxFraction segAABB acc
        else
          if (t.node nodeId).IsLeaf then
            if cb ⟨input.p1, input.p2, maxFraction⟩ nodeId = 0 then
              (t, some ((⟨⟨input.p1, input.p2, maxFraction⟩, segAABB, nodeId⟩ : RayVisit)
                :: acc).reverse)
            else
              if 0 < cb ⟨input.p1, input.p2, maxFraction⟩ nodeId then
                rayCastRunSt cb input v abs_v t fuel rest
                  (cb ⟨input.p1, input.p2, maxFraction⟩ nodeId)
                  (segAABBOf input.p1 input.p2
                    (cb ⟨input.p1, input.p2, maxFraction⟩ nodeId))
                  ((⟨⟨input.p1, input.p2, maxFraction⟩, segAABB, nodeId⟩ : RayVisit)
                    :: acc)
              else
                rayCastRunSt cb input v abs_v t fuel rest maxFraction segAABB
                  ((⟨⟨input.p1, input.p2, maxFraction⟩, segAABB, nodeId⟩ : RayVisit)
                    :: acc)
          else
            rayCastRunSt cb input v abs_v t fuel
              ((t.node nodeId).child2 :: (t.node nodeId).child1 :: rest)
              maxFraction segAABB acc

/-- State-threaded cb2DynamicTree::RayCast. -/
def cb2DynamicTree.RayCastSt (t : cb2DynamicTree) (cb : cb2RayCastInput → Int → ℚ)
    (input : cb2RayCastInput) (fuel : Nat) :
    cb2DynamicTree × Option (List RayVisit) :=
  let p1 := input.p1
  let p2 := input.p2
  let r := Vec2.sub p2 p1
  if 0 < r.lengthSquared then
    let v := cb2CrossSV 1 r
    let abs_v := cb2Abs v
    rayCastRunSt cb input v abs_v t fuel [t.m_root] input.maxFraction
      (segAABBOf p1 p2 input.maxFraction) []
  else (t, none)

/-! Specification-side notions used to state the claims about the
traversals: bounded-depth well-formedness of the subtree reachable
from an index, its size, its leaves in traversal order, the
containment invariant, and geometric predicates for the ray. -/

/-- The subtree reachable from index i is a well-formed tree within
depth d: i is null, or i is a live pool index whose children (when i
is internal) are well-formed within depth d - 1. -/
def okTree (t : cb2DynamicTree) : Nat → Int → Bool
  | 0, i => i == cb2_nullNode
  | d+1, i =>
    if i = cb2_nullNode then true
    else
      decide (0 ≤ i) && decide (i < t.m_nodeCapacity) &&
        (let n := t.node i
         if n.IsLeaf then true
         else okTree t d n.child1 && okTree t d n.child2)

/-- Number of traversal-loop iterations contributed by the subtree at
index i (each pop costs one iteration, including popping a null). -/
def nodeCountUnder (t : cb2DynamicTree) : Nat → Int → Nat
  | 0, _ => 1
  | d+1, i =>
    if i = cb2_nullNode then 1
    else
      let n := t.node i
      if n.IsLeaf then 1
      else 1 + nodeCountUnder t d n.child1 + nodeCountUnder t d n.child2

/-- The leaves of the subtree at index i, in traversal order (child2
before child1, because Query pushes child1 first and pops the head). -/
def leavesUnder (t : cb2DynamicTree) : Nat → Int → List Int
  | 0, _ => []
  | d+1, i =>
    if i = cb2_nullNode then []
    else
      let n := t.node i
      if n.IsLeaf then [i]
      else leavesUnder t d n.child2 ++ leavesUnder t d n.child1

/-- The leaves the Query traversal reaches below index i for query box
aabb: identical to leavesUnder except that a subtree whose root box
fails the overlap test is pruned whole. -/
def overlapLeaves (t : cb2DynamicTree) (aabb : cb2AABB) : Nat → Int → List Int
  | 0, _ => []
  | d+1, i =>
    if i = cb2_nullNode then []
    else
      let n := t.node i
      if cb2TestOverlap n.aabb aabb then
        if n.IsLeaf then [i]
        else overlapLeaves t aabb d n.child2 ++ overlapLeaves t aabb d n.child1
      else []

/-- Box a encloses box b. -/
def containsAABB (a b : cb2AABB) : Bool :=
  decide (a.lowerBound.x ≤ b.lowerBound.x) && decide (a.lowerBound.y ≤ b.lowerBound.y) &&
  decide (b.upperBound.x ≤ a.upperBound.x) && decide (b.upperBound.y ≤ a.upperBound.y)

/-- Every node of the subtree at index i encloses the boxes of its
non-null children (spec invariant 1, enclosure only). -/
def invariantUnder (t : cb2DynamicTree) : Nat → Int → Bool
  | 0, _ => true
  | d+1, i =>
    if i = cb2_nullNode then true
    else
      let n := t.node i
      if n.IsLeaf then true
      else
        (n.child1 == cb2_nullNode || containsAABB n.aabb (t.node n.child1).aabb) &&
        (n.child2 == cb2_nullNode || containsAABB n.aabb (t.node n.child2).aabb) &&
        invariantUnder t d n.child1 && invariantUnder t d n.child2

/-- The point p lies in the box b. -/
def pointInAABB (p : Vec2) (b : cb2AABB) : Prop :=
  b.lowerBound.x ≤ p.x ∧ p.x ≤ b.upperBound.x ∧
  b.lowerBound.y ≤ p.y ∧ p.y ≤ b.upperBound.y

/-- The point of the ray from p1 towards p2 at parametric fraction u. -/
def rayPoint (p1 p2 : Vec2) (u : ℚ) : Vec2 :=
  Vec2.add p1 (Vec2.smul u (Vec2.sub p2 p1))

/-- The clipped fraction after a list of callback return values: the
most recent positive return, or the original input.maxFraction when no
return was positive. -/
def clippedFraction (input : cb2RayCastInput) (returns : List ℚ) : ℚ :=
  returns.foldl (fun m value => if 0 < value then value else m) input.maxFraction

/-- The separation the RayCast loop computes for a node, written with
the unnormalized perpendicular to the ray as built by the RayCast
wrapper. -/
def sepOf (input : cb2RayCastInput) (n : cb2TreeNode) : ℚ :=
  raySep (cb2CrossSV 1 (Vec2.sub input.p2 input.p1))
    (cb2Abs (cb2CrossSV 1 (Vec2.sub input.p2 input.p1))) input.p1 n

/-- The node of a recorded callback invocation was a leaf that passed
both pruning tests against the segment box in force at that moment. -/
def visitOK (t : cb2DynamicTree) (input : cb2RayCastInput) (e : RayVisit) : Prop :=
  (t.node e.node).IsLeaf = true ∧
  cb2TestOverlap (t.node e.node).aabb e.box = true ∧
  sepOf input (t.node e.node) ≤ 0

/-- The callback trace of a RayCast traversal starting with max
fraction m: each invocation received subInput (input.p1, input.p2, the
current fraction), was tested against the segment box of the current
fraction, passed both pruning tests, could only be followed by further
invocations when its return was nonzero, and a positive return became
the new current fraction. -/
def visitChain (t : cb2DynamicTree) (cb : cb2RayCastInput → Int → ℚ)
    (input : cb2RayCastInput) : ℚ → List RayVisit → Prop
  | _, [] => True
  | m, e :: rest =>
    e.sub = ⟨input.p1, input.p2, m⟩ ∧
    e.box = segAABBOf input.p1 input.p2 m ∧
    visitOK t input e ∧
    (rest = [] ∨ cb e.sub e.node ≠ 0) ∧
    visitChain t cb input (if 0 < cb e.sub e.node then cb e.sub e.node else m) rest

/-! The contact-type registry of cb2Contact.cpp. The concrete creation
functions live in classes outside the sampled sources; they are
modelled as opaque tags, and invoking one is modelled by returning the
tag together with the exact argument list passed. -/

/-- Modelled from the spec: cb2Shape::Type (cb2Shape.h is not part of
this repository); the enum values e_circle = 0, e_edge = 1,
e_polygon = 2, e_chain = 3 in declaration order. -/
inductive ShapeType where
  | circle
  | edge
  | polygon
  | chain
deriving DecidableEq

/-- Opaque tags for the seven concrete contact creation functions
registered by cb2Contact::InitializeRegisters. -/
inductive ContactKind where
  | circleContact
  | polygonAndCircleContact
  | polygonContact
  | edgeAndCircleContact
  | edgeAndPolygonContact
  | chainAndCircleContact
  | chainAndPolygonContact
deriving DecidableEq

/-- cb2ContactRegister: creation function pointer (none = NULL) and the
primary flag. -/
structure cb2ContactRegister where
  createFcn : Option ContactKind
  primary : Bool
deriving DecidableEq

/-- The static registry table s_registers, indexed by an ordered pair
of shape types. -/
def ContactRegistry := ShapeType → ShapeType → cb2ContactRegister

/-- The zero-initialized static table: every createFcn is NULL. -/
def registersZero : ContactRegistry := fun _ _ => ⟨none, false⟩

/-- cb2Contact::AddType: store (createFcn, primary = true) at
[type1][type2], and when the types differ also store the same function
with primary = false at [type2][type1]. -/
def cb2Contact.AddType (reg : ContactRegistry) (createFcn : ContactKind)
    (type1 type2 : ShapeType) : ContactRegistry :=
  fun a b =>
    if a = type1 ∧ b = type2 then ⟨some createFcn, true⟩
    else if type1 ≠ type2 ∧ a = type2 ∧ b = type1 then ⟨some createFcn, false⟩
    else reg a b

/-- cb2Contact::InitializeRegisters: the seven AddType calls in source
order, starting from the zero-initialized table. -/
def cb2Contact.InitializeRegisters : ContactRegistry :=
  cb2Contact.AddType
    (cb2Contact.AddType
      (cb2Contact.AddType
        (cb2Contact.AddType
          (cb2Contact.AddType
            (cb2Contact.AddType
              (cb2Contact.AddType registersZero
                .circleContact .circle .circle)
              .polygonAndCircleContact .polygon .circle)
            .polygonContact .polygon .polygon)
          .edgeAndCircleContact .edge .circle)
        .edgeAndPolygonContact .edge .polygon)
      .chainAndCircleContact .chain .circle)
    .chainAndPolygonContact .chain .polygon

/-- A fixture, reduced to what cb2Contact::Create reads: its shape type
(GetType()) and an opaque identity distinguishing distinct fixtures. -/
structure cb2Fixture where
  shapeType : ShapeType
  ident : Int
deriving DecidableEq

/-- The invocation cb2Contact::Create performs: which creation function
it called and the exact arguments, in order. -/
structure CreateInvocation where
  kind : ContactKind
  fixtureA : cb2Fixture
  indexA : Int
  fixtureB : cb2Fixture
  indexB : Int
  allocator : Int
deriving DecidableEq

/-- cb2Contact::Create: after the lazy one-time InitializeRegisters
(by the time of any lookup the table is the fully initialized one),
look up [type1][type2]; a NULL createFcn returns NULL (none); a
registered entry calls the function with the arguments in given order
when primary, and with the fixture/index pairs swapped otherwise. -/
def cb2Contact.Create (fixtureA : cb2Fixture) (indexA : Int)
    (fixtureB : cb2Fixture) (indexB : Int) (allocator : Int) :
    Option CreateInvocation :=
  let type1 := fixtureA.shapeType
  let type2 := fixtureB.shapeType
  match (cb2Contact.InitializeRegisters type1 type2).createFcn with
  | some createFcn =>
    if (cb2Contact.InitializeRegisters type1 type2).primary then
      some ⟨createFcn, fixtureA, indexA, fixtureB, indexB, allocator⟩
    else
      some ⟨createFcn, fixtureB, indexB, fixtureA, indexA, allocator⟩
  | none => none

/-! Concrete states and inputs used by the witnesses and
counterexamples. -/

/-- A three-node tree: an internal root (index 0) enclosing the leaf
boxes [0,1]x[0,1] (index 1) and [5,6]x[0,1] (index 2). -/
def exTree : cb2DynamicTree :=
  { m_root := 0
    m_nodes :=
      [ ⟨⟨⟨0, 0⟩, ⟨6, 1⟩⟩, 0, -1, 1, 2, 1⟩
      , ⟨⟨⟨0, 0⟩, ⟨1, 1⟩⟩, 10, 0, -1, -1, 0⟩
      , ⟨⟨⟨5, 0⟩, ⟨6, 1⟩⟩, 20, 0, -1, -1, 0⟩ ]
    m_nodeCount := 3
    m_freeList := -1
    m_path := 0
    m_insertionCount := 3 }

/-- Query box overlapping only leaf 1 of exTree. -/
def qBoxEx : cb2AABB := ⟨⟨0, 0⟩, ⟨2, 2⟩⟩

/-- Query box overlapping both leaves of exTree. -/
def qBoxBig : cb2AABB := ⟨⟨-1, -1⟩, ⟨7, 7⟩⟩

/-- A callback answering false exactly on node index 2. -/
def cbStopAt2 : Int → Bool := fun i => i != 2

/-- The empty tree: root is null, empty pool. -/
def emptyTree : cb2DynamicTree :=
  { m_root := cb2_nullNode
    m_nodes := []
    m_nodeCount := 0
    m_freeList := -1
    m_path := 0
    m_insertionCount := 0 }

/-- A valid ray input used with the empty tree. -/
def exInput : cb2RayCastInput := ⟨⟨0, 0⟩, ⟨1, 0⟩, 1⟩

/-- Degenerate ray input with p1 = p2. -/
def exInputDegenerate : cb2RayCastInput := ⟨⟨2, 3⟩, ⟨2, 3⟩, 1⟩

/-- Five-node tree along the x-axis used against the ray claims: root 0
with child1 = leaf 2 (box [2/5,3/5]x[-1/10,1/10]) and child2 =
internal 1, whose child1 = leaf 4 and child2 = leaf 3, both small
boxes at the ray origin. Traversal order of the leaves: 3, 4, 2. -/
def cxTree : cb2DynamicTree :=
  { m_root := 0
    m_nodes :=
      [ ⟨⟨⟨0, -1/10⟩, ⟨3/5, 1/10⟩⟩, 0, -1, 2, 1, 2⟩
      , ⟨⟨⟨0, -1/10⟩, ⟨3/50, 1/10⟩⟩, 0, 0, 4, 3, 1⟩
      , ⟨⟨⟨2/5, -1/10⟩, ⟨3/5, 1/10⟩⟩, 3, 0, -1, -1, 0⟩
      , ⟨⟨⟨0, -1/10⟩, ⟨1/20, 1/10⟩⟩, 1, 1, -1, -1, 0⟩
      , ⟨⟨⟨0, -1/10⟩, ⟨3/50, 1/10⟩⟩, 2, 1, -1, -1, 0⟩ ]
    m_nodeCount := 5
    m_freeList := -1
    m_path := 0
    m_insertionCount := 5 }

/-- Ray input from (0,0) to (1,0) with max fraction 1. -/
def cxInput : cb2RayCastInput := ⟨⟨0, 0⟩, ⟨1, 0⟩, 1⟩

/-- Visitor returning fraction 1/10 on leaf 3, then the larger fraction
9/10 on leaf 4, and ignore (-1) elsewhere. -/
def cxCb : cb2RayCastInput → Int → ℚ :=
  fun _ i => if i = 3 then 1/10 else if i = 4 then 9/10 else -1

/-- A visitor that ignores every hit. -/
def cbIgnore : cb2RayCastInput → Int → ℚ := fun _ _ => -1

/-- Ray input from (0,0) to (1,0) with max fraction 0 (non-positive). -/
def cxInputZero : cb2RayCastInput := ⟨⟨0, 0⟩, ⟨1, 0⟩, 0⟩

/-- A two-slot pool whose slot 0 is a live leaf and whose slot 1 is on
the free list (height -1) while still holding stale data. -/
def freeSlotTree : cb2DynamicTree :=
  { m_root := 0
    m_nodes :=
      [ ⟨⟨⟨0, 0⟩, ⟨1, 1⟩⟩, 42, -1, -1, -1, 0⟩
      , ⟨⟨⟨7, 7⟩, ⟨8, 8⟩⟩, 99, -1, -1, -1, -1⟩ ]
    m_nodeCount := 1
    m_freeList := 1
    m_path := 0
    m_insertionCount := 1 }

/-- Two distinct circle fixtures. -/
def fxCircleA : cb2Fixture := ⟨.circle, 0⟩

/-- Second circle fixture. -/
def fxCircleB : cb2Fixture := ⟨.circle, 1⟩

/-- A polygon fixture. -/
def fxPolygonA : cb2Fixture := ⟨.polygon, 2⟩

/-- Two edge fixtures. -/
def fxEdgeA : cb2Fixture := ⟨.edge, 3⟩

/-- Second edge fixture. -/
def fxEdgeB : cb2Fixture := ⟨.edge, 4⟩

/-! Basic facts about the overlap test and containment. -/

/-- The overlap test succeeds iff the boxes intersect componentwise. -/
theorem cb2TestOverlap_iff (a b : cb2AABB) :
    cb2TestOverlap a b = true ↔
      (b.lowerBound.x ≤ a.upperBound.x ∧ b.lowerBound.y ≤ a.upperBound.y ∧
       a.lowerBound.x ≤ b.upperBound.x ∧ a.lowerBound.y ≤ b.upperBound.y) := by
  unfold cb2TestOverlap
  simp only [Vec2.sub]
  split_ifs with h1 h2
  · simp only [Bool.false_eq_true, false_iff]
    rintro ⟨c1, c2, c3, c4⟩
    rcases h1 with h | h <;> linarith
  · simp only [Bool.false_eq_true, false_iff]
    rintro ⟨c1, c2, c3, c4⟩
    rcases h2 with h | h <;> linarith
  · push_neg at h1 h2
    simp only [true_iff]
    exact ⟨by linarith [h1.1], by linarith [h1.2], by linarith [h2.1], by linarith [h2.2]⟩

/-- Containment unfolded to componentwise inequalities. -/
theorem containsAABB_iff (a b : cb2AABB) :
    containsAABB a b = true ↔
      (a.lowerBound.x ≤ b.lowerBound.x ∧ a.lowerBound.y ≤ b.lowerBound.y ∧
       b.upperBound.x ≤ a.upperBound.x ∧ b.upperBound.y ≤ a.upperBound.y) := by
  unfold containsAABB
  simp [Bool.and_eq_true, and_assoc]

/-- Containment is reflexive. -/
theorem containsAABB_refl (a : cb2AABB) : containsAABB a a = true := by
  simp [containsAABB_iff]

/-- Containment is transitive. -/
theorem containsAABB_trans {a b c : cb2AABB} (h1 : containsAABB a b = true)
    (h2 : containsAABB b c = true) : containsAABB a c = true := by
  rw [containsAABB_iff] at h1 h2 ⊢
  obtain ⟨x1, y1, x2, y2⟩ := h1
  obtain ⟨x3, y3, x4, y4⟩ := h2
  exact ⟨by linarith, by linarith, by linarith, by linarith⟩

/-- A box overlapping a contained box overlaps the container. -/
theorem overlap_of_contains {a b q : cb2AABB} (hc : containsAABB a b = true)
    (ho : cb2TestOverlap b q = true) : cb2TestOverlap a q = true := by
  rw [containsAABB_iff] at hc
  rw [cb2TestOverlap_iff] at ho ⊢
  obtain ⟨x1, y1, x2, y2⟩ := hc
  obtain ⟨o1, o2, o3, o4⟩ := ho
  exact ⟨by linarith, by linarith, by linarith, by linarith⟩

/-- leavesUnder of a null index is empty at every depth. -/
theorem leavesUnder_null (t : cb2DynamicTree) (d : Nat) :
    leavesUnder t d cb2_nullNode = [] := by
  cases d <;> simp [leavesUnder]

/-- Every leaf below index i has its box enclosed by the box at i, given
the containment invariant below i. -/
theorem leavesUnder_contained (t : cb2DynamicTree) :
    ∀ d i, invariantUnder t d i = true →
      ∀ j ∈ leavesUnder t d i, containsAABB (t.node i).aabb (t.node j).aabb = true := by
  intro d
  induction d with
  | zero => intro i _ j hj; simp [leavesUnder] at hj
  | succ d ih =>
    intro i hinv j hj
    by_cases hi : i = cb2_nullNode
    · rw [hi, leavesUnder_null] at hj; cases hj
    · cases hleaf : (t.node i).IsLeaf with
      | true =>
        simp only [leavesUnder, if_neg hi, hleaf, if_true, List.mem_singleton] at hj
        subst hj; exact containsAABB_refl _
      | false =>
        simp only [leavesUnder, if_neg hi, hleaf] at hj
        simp only [Bool.false_eq_true, if_false, List.mem_append] at hj
        simp only [invariantUnder, if_neg hi, hleaf, Bool.false_eq_true, if_false,
          Bool.and_eq_true, Bool.or_eq_true, beq_iff_eq] at hinv
        obtain ⟨⟨⟨hc1, hc2⟩, hi1⟩, hi2⟩ := hinv
        rcases hj with hj | hj
        · rcases hc2 with hnull | hc2
          · rw [hnull, leavesUnder_null] at hj; cases hj
          · exact containsAABB_trans hc2 (ih _ hi2 j hj)
        · rcases hc1 with hnull | hc1
          · rw [hnull, leavesUnder_null] at hj; cases hj
          · exact containsAABB_trans hc1 (ih _ hi1 j hj)

/-- Under the containment invariant, the leaves the Query traversal
reaches are exactly the leaves whose own box passes the overlap test. -/
theorem overlapLeaves_eq_filter (t : cb2DynamicTree) (q : cb2AABB) :
    ∀ d i, invariantUnder t d i = true →
      overlapLeaves t q d i =
        (leavesUnder t d i).filter (fun j => cb2TestOverlap (t.node j).aabb q) := by
  intro d
  induction d with
  | zero => intro i _; simp [overlapLeaves, leavesUnder]
  | succ d ih =>
    intro i hinv
    by_cases hi : i = cb2_nullNode
    · simp [overlapLeaves, leavesUnder, hi]
    · cases hleaf : (t.node i).IsLeaf with
      | true =>
        simp only [overlapLeaves, leavesUnder, if_neg hi, hleaf, if_true]
        cases hov : cb2TestOverlap (t.node i).aabb q with
        | true => simp [hov]
        | false => simp [hov]
      | false =>
        have hinv' := hinv
        simp only [invariantUnder, if_neg hi, hleaf, Bool.false_eq_true, if_false,
          Bool.and_eq_true] at hinv'
        obtain ⟨⟨_, hi1⟩, hi2⟩ := hinv'
        simp only [overlapLeaves, leavesUnder, if_neg hi, hleaf, Bool.false_eq_true,
          if_false]
        cases hov : cb2TestOverlap (t.node i).aabb q with
        | true =>
          simp only [if_true, List.filter_append]
          rw [ih _ hi2, ih _ hi1]
        | false =>
          simp only [Bool.false_eq_true, if_false]
          have hcont := leavesUnder_contained t (d+1) i hinv
          simp only [leavesUnder, if_neg hi, hleaf, Bool.false_eq_true, if_false]
            at hcont
          rw [eq_comm, List.filter_eq_nil_iff]
          intro j hj hjov
          rw [overlap_of_contains (hcont j hj) hjov] at hov
          cases hov

/-- Extra fuel preserves a completed Query traversal. -/
theorem queryRun_mono (t : cb2DynamicTree) (cb : Int → Bool) (q : cb2AABB) :
    ∀ fuel k stack acc res, queryRun t cb q fuel stack acc = some res →
      queryRun t cb q (fuel + k) stack acc = some res := by
  intro fuel
  induction fuel with
  | zero =>
    intro k stack acc res h
    cases stack with
    | nil => simpa [queryRun] using h
    | cons i rest => simp [queryRun] at h
  | succ fuel ih =>
    intro k stack acc res h
    cases stack with
    | nil => simpa [queryRun] using h
    | cons i rest =>
      rw [Nat.succ_add]
      rw [queryRun] at h ⊢
      split_ifs at h ⊢
      · exact ih k rest acc res h
      · exact ih k rest _ res h
      · exact h
      · exact ih k _ acc res h
      · exact ih k rest acc res h

/-- Fuel accounting for the Query traversal with the always-true
callback: processing the subtree below i consumes exactly
nodeCountUnder iterations and appends its overlap leaves. -/
theorem queryRun_count (t : cb2DynamicTree) (q : cb2AABB) :
    ∀ d i, okTree t d i = true →
      ∀ stack acc res fuel,
        queryRun t (fun _ => true) q fuel stack
          ((overlapLeaves t q d i).reverse ++ acc) = some res →
        queryRun t (fun _ => true) q (nodeCountUnder t d i + fuel) (i :: stack) acc
          = some res := by
  intro d
  induction d with
  | zero =>
    intro i hok stack acc res fuel h
    have hi : i = cb2_nullNode := by simpa [okTree] using hok
    simp only [overlapLeaves, List.reverse_nil, List.nil_append] at h
    have hc : nodeCountUnder t 0 i + fuel = fuel + 1 := by simp [nodeCountUnder]; omega
    rw [hc, queryRun, if_pos hi]
    exact h
  | succ d ih =>
    intro i hok stack acc res fuel h
    by_cases hi : i = cb2_nullNode
    · simp only [overlapLeaves, if_pos hi, List.reverse_nil, List.nil_append] at h
      have hc : nodeCountUnder t (d+1) i + fuel = fuel + 1 := by
        simp [nodeCountUnder, hi]; omega
      rw [hc, queryRun, if_pos hi]
      exact h
    · cases hleaf : (t.node i).IsLeaf with
      | true =>
        have hc : nodeCountUnder t (d+1) i + fuel = fuel + 1 := by
          simp [nodeCountUnder, hi, hleaf]; omega
        rw [hc, queryRun, if_neg hi]
        cases hov : cb2TestOverlap (t.node i).aabb q with
        | true =>
          simp only [overlapLeaves, if_neg hi, hov, if_true, hleaf,
            List.reverse_singleton, List.singleton_append] at h
          simp only [hov, if_true, hleaf]
          exact h
        | false =>
          simp only [overlapLeaves, if_neg hi, hov, Bool.false_eq_true, if_false,
            List.reverse_nil, List.nil_append] at h
          simp only [hov, Bool.false_eq_true, if_false]
          exact h
      | false =>
        have hok' := hok
        simp only [okTree, if_neg hi, hleaf, Bool.false_eq_true, if_false,
          Bool.and_eq_true] at hok'
        obtain ⟨_, hok1, hok2⟩ := hok'
        cases hov : cb2TestOverlap (t.node i).aabb q with
        | true =>
          have hc : nodeCountUnder t (d+1) i + fuel =
              (nodeCountUnder t d (t.node i).child2 +
                (nodeCountUnder t d (t.node i).child1 + fuel)) + 1 := by
            simp [nodeCountUnder, hi, hleaf]; omega
          rw [hc, queryRun, if_neg hi]
          simp only [hov, if_true, hleaf, Bool.false_eq_true, if_false]
          apply ih _ hok2
          apply ih _ hok1
          simp only [overlapLeaves, if_neg hi, hov, if_true, hleaf, Bool.false_eq_true,
            if_false, List.reverse_append, List.append_assoc] at h
          exact h
        | false =>
          have hc : nodeCountUnder t (d+1) i + fuel =
              (fuel + (nodeCountUnder t d (t.node i).child1 +
                nodeCountUnder t d (t.node i).child2)) + 1 := by
            simp [nodeCountUnder, hi, hleaf]; omega
          rw [hc, queryRun, if_neg hi]
          simp only [hov, Bool.false_eq_true, if_false]
          simp only [overlapLeaves, if_neg hi, hov, Bool.false_eq_true, if_false,
            List.reverse_nil, List.nil_append] at h
          exact queryRun_mono t _ q fuel _ stack acc res h

/-- One Query iteration: a popped null index is skipped. -/
theorem queryRun_step_null (t : cb2DynamicTree) (cb : Int → Bool) (q : cb2AABB)
    (fuel : Nat) (i : Int) (rest : List Int) (acc : List Int)
    (h : i = cb2_nullNode) :
    queryRun t cb q (fuel+1) (i :: rest) acc = queryRun t cb q fuel rest acc := by
  rw [queryRun, if_pos h]

/-- One Query iteration: a node failing the overlap test is pruned. -/
theorem queryRun_step_prune (t : cb2DynamicTree) (cb : Int → Bool) (q : cb2AABB)
    (fuel : Nat) (i : Int) (rest : List Int) (acc : List Int)
    (h1 : i ≠ cb2_nullNode) (h2 : cb2TestOverlap (t.node i).aabb q = false) :
    queryRun t cb q (fuel+1) (i :: rest) acc = queryRun t cb q fuel rest acc := by
  rw [queryRun, if_neg h1]
  simp only [h2, Bool.false_eq_true, if_false]

/-- One Query iteration: an overlapping leaf is passed to the callback;
a true return continues, a false return ends the traversal. -/
theorem queryRun_step_leaf (t : cb2DynamicTree) (cb : Int → Bool) (q : cb2AABB)
    (fuel : Nat) (i : Int) (rest : List Int) (acc : List Int)
    (h1 : i ≠ cb2_nullNode) (h2 : cb2TestOverlap (t.node i).aabb q = true)
    (h3 : (t.node i).IsLeaf = true) :
    queryRun t cb q (fuel+1) (i :: rest) acc =
      if cb i then queryRun t cb q fuel rest (i :: acc)
      else some ((i :: acc)).reverse := by
  rw [queryRun, if_neg h1]
  simp only [h2, h3, if_true]

/-- One Query iteration: an overlapping internal node pushes child1
then child2. -/
theorem queryRun_step_internal (t : cb2DynamicTree) (cb : Int → Bool) (q : cb2AABB)
    (fuel : Nat) (i : Int) (rest : List Int) (acc : List Int)
    (h1 : i ≠ cb2_nullNode) (h2 : cb2TestOverlap (t.node i).aabb q = true)
    (h3 : (t.node i).IsLeaf = false) :
    queryRun t cb q (fuel+1) (i :: rest) acc =
      queryRun t cb q fuel ((t.node i).child2 :: (t.node i).child1 :: rest) acc := by
  rw [queryRun, if_neg h1]
  simp only [h2, h3, if_true, Bool.false_eq_true, if_false]

/-- Concrete evaluation: on the three-node tree with the big query box,
the callback that answers false on node 2 ends the traversal after the
very first leaf visit. -/
theorem exTree_query_stop_eval : exTree.Query cbStopAt2 qBoxBig 5 = some [2] := by
  unfold cb2DynamicTree.Query
  have hn0 : exTree.node 0 = ⟨⟨⟨0, 0⟩, ⟨6, 1⟩⟩, 0, -1, 1, 2, 1⟩ := rfl
  have hn2 : exTree.node 2 = ⟨⟨⟨5, 0⟩, ⟨6, 1⟩⟩, 20, 0, -1, -1, 0⟩ := rfl
  rw [show exTree.m_root = 0 from rfl, show (5 : Nat) = 4+1 from rfl,
    queryRun_step_internal exTree cbStopAt2 qBoxBig 4 0 [] []
      (by decide)
      (by rw [hn0]; norm_num [cb2TestOverlap, Vec2.sub, qBoxBig])
      (by rw [hn0]; rfl)]
  rw [hn0, show (4 : Nat) = 3+1 from rfl]
  rw [queryRun_step_leaf exTree cbStopAt2 qBoxBig 3 2 [1] []
      (by decide)
      (by rw [hn2]; norm_num [cb2TestOverlap, Vec2.sub, qBoxBig])
      (by rw [hn2]; rfl)]
  rw [if_neg (by decide)]
  rfl

/-- Claim C1: on a tree state whose reachable part is well formed
within depth d and satisfies the AABB containment invariant, Query with
an always-true callback invokes the callback exactly on the live leaves
whose stored fat AABB overlaps the query box — never on a leaf disjoint
from the query box, and on every overlapping leaf; in particular, when
the query box is disjoint from every leaf box there are no callback
invocations at all. -/
theorem query_visits_exactly_overlapping_leaves (t : cb2DynamicTree) (q : cb2AABB)
    (d : Nat) (hok : okTree t d t.m_root = true)
    (hinv : invariantUnder t d t.m_root = true) :
    t.Query (fun _ => true) q (nodeCountUnder t d t.m_root) =
      some ((leavesUnder t d t.m_root).filter
        (fun j => cb2TestOverlap (t.node j).aabb q)) ∧
    ((∀ j ∈ leavesUnder t d t.m_root, cb2TestOverlap (t.node j).aabb q = false) →
      t.Query (fun _ => true) q (nodeCountUnder t d t.m_root) = some []) := by
  have hmain : t.Query (fun _ => true) q (nodeCountUnder t d t.m_root) =
      some (overlapLeaves t q d t.m_root) := by
    unfold cb2DynamicTree.Query
    have h0 : queryRun t (fun _ => true) q 0 []
        ((overlapLeaves t q d t.m_root).reverse ++ []) =
        some (overlapLeaves t q d t.m_root) := by
      simp [queryRun]
    have := queryRun_count t q d t.m_root hok [] [] (overlapLeaves t q d t.m_root) 0 h0
    simpa using this
  rw [overlapLeaves_eq_filter t q d t.m_root hinv] at hmain
  refine ⟨hmain, fun hdisj => ?_⟩
  rw [hmain, List.filter_eq_nil_iff.mpr ?_]
  intro j hj
  simp [hdisj j hj]

/-- Witness for C1 on the concrete three-node tree: the query box
[0,2]x[0,2] overlaps only leaf 1, and Query visits exactly the
overlap-filtered leaves. -/
theorem query_visits_exactly_overlapping_leaves_witness :
    exTree.Query (fun _ => true) qBoxEx (nodeCountUnder exTree 2 exTree.m_root) =
      some ((leavesUnder exTree 2 exTree.m_root).filter
        (fun j => cb2TestOverlap (exTree.node j).aabb qBoxEx)) :=
  (query_visits_exactly_overlapping_leaves exTree qBoxEx 2 (by decide) (by decide)).1

/-- The Query traversal only ever passes leaves to the callback, and
every recorded invocation except possibly the last returned true (a
false return ends the traversal at once). -/
theorem queryRun_discipline (t : cb2DynamicTree) (cb : Int → Bool) (q : cb2AABB) :
    ∀ fuel stack acc vis,
      (∀ j ∈ acc, (t.node j).IsLeaf = true ∧ cb j = true) →
      queryRun t cb q fuel stack acc = some vis →
      (∀ j ∈ vis, (t.node j).IsLeaf = true) ∧ (∀ j ∈ vis.dropLast, cb j = true) := by
  intro fuel
  induction fuel with
  | zero =>
    intro stack acc vis hacc h
    cases stack with
    | nil =>
      simp only [queryRun, Option.some.injEq] at h
      subst h
      refine ⟨fun j hj => (hacc j (by simpa using hj)).1, fun j hj => ?_⟩
      exact (hacc j (by simpa using List.dropLast_subset _ hj)).2
    | cons i rest => simp [queryRun] at h
  | succ fuel ih =>
    intro stack acc vis hacc h
    cases stack with
    | nil =>
      simp only [queryRun, Option.some.injEq] at h
      subst h
      refine ⟨fun j hj => (hacc j (by simpa using hj)).1, fun j hj => ?_⟩
      exact (hacc j (by simpa using List.dropLast_subset _ hj)).2
    | cons i rest =>
      rw [queryRun] at h
      split_ifs at h with h1 h2 h3 h4
      · exact ih rest acc vis hacc h
      · refine ih rest (i :: acc) vis ?_ h
        intro j hj
        rcases List.mem_cons.mp hj with hj | hj
        · subst hj; exact ⟨h3, h4⟩
        · exact hacc j hj
      · simp only [Option.some.injEq] at h
        subst h
        constructor
        · intro j hj
          rw [List.reverse_cons, List.mem_append] at hj
          rcases hj with hj | hj
          · exact (hacc j (by simpa using hj)).1
          · rw [List.mem_singleton] at hj; subst hj; exact h3
        · intro j hj
          rw [List.reverse_cons, List.dropLast_concat] at hj
          exact (hacc j (by simpa using hj)).2
      · exact ih _ acc vis hacc h
      · exact ih rest acc vis hacc h

/-- Claim C4: Query passes only leaf node indices to the overlap
callback, and a false return stops the whole traversal at once — every
invocation before the last returned true, so nothing that was still on
the stack is visited after a false return. -/
theorem query_leaf_only_and_early_stop (t : cb2DynamicTree) (cb : Int → Bool)
    (q : cb2AABB) (fuel : Nat) (vis : List Int)
    (h : t.Query cb q fuel = some vis) :
    (∀ j ∈ vis, (t.node j).IsLeaf = true) ∧ (∀ j ∈ vis.dropLast, cb j = true) :=
  queryRun_discipline t cb q fuel [t.m_root] [] vis (by simp) h

/-- Witness for C4 on the concrete three-node tree with a callback
answering false on node 2: the traversal visits node 2 first (it is
leaf) and stops, so the recorded trace is the single leaf 2. -/
theorem query_leaf_only_and_early_stop_witness :
    (∀ j ∈ ([2] : List Int), (exTree.node j).IsLeaf = true) ∧
    (∀ j ∈ ([2] : List Int).dropLast, cbStopAt2 j = true) :=
  query_leaf_only_and_early_stop exTree cbStopAt2 qBoxBig 5 [2] exTree_query_stop_eval

/-- p1 differing from p2 in some component gives the ray direction a
positive squared length. -/
theorem lengthSquared_pos_of_ne {a b : Vec2} (h : a ≠ b) :
    0 < (Vec2.sub b a).lengthSquared := by
  have hne : b.x - a.x ≠ 0 ∨ b.y - a.y ≠ 0 := by
    by_contra hc
    push_neg at hc
    apply h
    obtain ⟨ax, ay⟩ := a
    obtain ⟨bx, b2⟩ := b
    simp only [Vec2.mk.injEq]
    simp only at hc
    constructor
    · linarith [sub_eq_zero.mp hc.1]
    · linarith [sub_eq_zero.mp hc.2]
  show 0 < (b.x - a.x) * (b.x - a.x) + (b.y - a.y) * (b.y - a.y)
  rcases hne with hx | hy
  · nlinarith [mul_self_nonneg (b.y - a.y), mul_self_pos.mpr hx]
  · nlinarith [mul_self_nonneg (b.x - a.x), mul_self_pos.mpr hy]

/-- Claim C9: on the empty tree (null root) both traversals invoke no
callback and return normally for every query box and every valid ray
input; moreover a null index popped from either traversal stack is
skipped without any node access. -/
theorem empty_tree_traversals_and_null_skip (t : cb2DynamicTree) (cb : Int → Bool)
    (rcb : cb2RayCastInput → Int → ℚ) (q : cb2AABB) (input : cb2RayCastInput)
    (fuel : Nat) (hroot : t.m_root = cb2_nullNode) (hp : input.p1 ≠ input.p2) :
    t.Query cb q (fuel+1) = some [] ∧
    t.RayCast rcb input (fuel+1) = some [] ∧
    (∀ fuel2 stack acc, queryRun t cb q (fuel2+1) (cb2_nullNode :: stack) acc =
      queryRun t cb q fuel2 stack acc) ∧
    (∀ fuel2 stack m seg acc v av,
      rayCastRun t rcb input v av (fuel2+1) (cb2_nullNode :: stack) m seg acc =
        rayCastRun t rcb input v av fuel2 stack m seg acc) := by
  refine ⟨?_, ?_, ?_, ?_⟩
  · unfold cb2DynamicTree.Query
    rw [hroot, queryRun, if_pos rfl]
    cases fuel <;> simp [queryRun]
  · unfold cb2DynamicTree.RayCast
    rw [if_pos (lengthSquared_pos_of_ne hp)]
    rw [hroot, rayCastRun, if_pos rfl]
    cases fuel <;> simp [rayCastRun]
  · intro fuel2 stack acc
    rw [queryRun, if_pos rfl]
  · intro fuel2 stack m seg acc v av
    rw [rayCastRun, if_pos rfl]

/-- Witness for C9 on the concrete empty tree with a valid ray. -/
theorem empty_tree_traversals_witness :
    emptyTree.Query cbStopAt2 qBoxEx 1 = some [] ∧
    emptyTree.RayCast cbIgnore exInput 1 = some [] :=
  ⟨(empty_tree_traversals_and_null_skip emptyTree cbStopAt2 cbIgnore qBoxEx exInput 0
      rfl (by decide)).1,
   (empty_tree_traversals_and_null_skip emptyTree cbStopAt2 cbIgnore qBoxEx exInput 0
      rfl (by decide)).2.1⟩

/-- The state-threaded Query loop returns the tree unchanged together
with the pure traversal result. -/
theorem queryRunSt_eq (cb : Int → Bool) (q : cb2AABB) :
    ∀ fuel t stack acc,
      queryRunSt cb q t fuel stack acc = (t, queryRun t cb q fuel stack acc) := by
  intro fuel
  induction fuel with
  | zero =>
    intro t stack acc
    cases stack <;> simp [queryRunSt, queryRun]
  | succ fuel ih =>
    intro t stack acc
    cases stack with
    | nil => simp [queryRunSt, queryRun]
    | cons i rest =>
      rw [queryRunSt, queryRun]
      split_ifs <;> first | rfl | apply ih

/-- The state-threaded RayCast loop returns the tree unchanged together
with the pure traversal result. -/
theorem rayCastRunSt_eq (cb : cb2RayCastInput → Int → ℚ) (input : cb2RayCastInput)
    (v abs_v : Vec2) :
    ∀ fuel t stack m seg acc,
      rayCastRunSt cb input v abs_v t fuel stack m seg acc =
        (t, rayCastRun t cb input v abs_v fuel stack m seg acc) := by
  intro fuel
  induction fuel with
  | zero =>
    intro t stack m seg acc
    cases stack <;> simp [rayCastRunSt, rayCastRun]
  | succ fuel ih =>
    intro t stack m seg acc
    cases stack with
    | nil => simp [rayCastRunSt, rayCastRun]
    | cons i rest =>
      rw [rayCastRunSt, rayCastRun]
      split_ifs <;> first | rfl | apply ih

/-- Claim C7: Query and RayCast never modify the tree: the
statement-by-statement state-threaded translations of both const
methods return the entry state itself — root, every node's fields, the
free list head and all counters included — along with the result of
the pure traversal, for every tree, query box, ray input, callback and
fuel. -/
theorem traversals_leave_tree_unchanged (t : cb2DynamicTree) (cb : Int → Bool)
    (rcb : cb2RayCastInput → Int → ℚ) (q : cb2AABB) (input : cb2RayCastInput)
    (fuel : Nat) :
    t.QuerySt cb q fuel = (t, t.Query cb q fuel) ∧
    t.RayCastSt rcb input fuel = (t, t.RayCast rcb input fuel) := by
  constructor
  · unfold cb2DynamicTree.QuerySt cb2DynamicTree.Query
    exact queryRunSt_eq cb q fuel t [t.m_root] []
  · simp only [cb2DynamicTree.RayCastSt, cb2DynamicTree.RayCast]
    split_ifs
    · exact rayCastRunSt_eq rcb input _ _ fuel t [t.m_root] _ _ []
    · rfl

/-- Completed RayCast loops produce visit chains: the recorded trace
extends the accumulator with a chain governed by the current max
fraction. -/
theorem rayCastRun_chain (t : cb2DynamicTree) (cb : cb2RayCastInput → Int → ℚ)
    (input : cb2RayCastInput) (v abs_v : Vec2)
    (hv : v = cb2CrossSV 1 (Vec2.sub input.p2 input.p1))
    (hav : abs_v = cb2Abs v) :
    ∀ fuel stack m seg acc tr,
      seg = segAABBOf input.p1 input.p2 m →
      rayCastRun t cb input v abs_v fuel stack m seg acc = some tr →
      ∃ tl, tr = acc.reverse ++ tl ∧ visitChain t cb input m tl := by
  intro fuel
  induction fuel with
  | zero =>
    intro stack m seg acc tr hseg h
    cases stack with
    | nil =>
      simp only [rayCastRun, Option.some.injEq] at h
      subst h
      exact ⟨[], by simp, trivial⟩
    | cons i rest => simp [rayCastRun] at h
  | succ fuel ih =>
    intro stack m seg acc tr hseg h
    cases stack with
    | nil =>
      simp only [rayCastRun, Option.some.injEq] at h
      subst h
      exact ⟨[], by simp, trivial⟩
    | cons i rest =>
      rw [rayCastRun] at h
      split_ifs at h with h1 h2 h3 h4 h5 h6
      · exact ih rest m seg acc tr hseg h
      · exact ih rest m seg acc tr hseg h
      · exact ih rest m seg acc tr hseg h
      · -- leaf visited, callback returned 0: traversal ends here
        simp only [Option.some.injEq] at h
        subst h
        refine ⟨[⟨⟨input.p1, input.p2, m⟩, seg, i⟩], by simp, ?_, ?_, ?_, ?_, trivial⟩
        · rfl
        · rw [hseg]
        · refine ⟨h4, ?_, ?_⟩
          · cases hx : cb2TestOverlap (t.node i).aabb seg with
            | false => exact absurd hx h2
            | true => rfl
          · unfold sepOf
            rw [← hv, ← hav]
            exact le_of_not_lt h3
        · exact Or.inl rfl
      · -- leaf visited, positive return: fraction and box are replaced
        obtain ⟨tl2, htr, hchain⟩ := ih rest _ _ _ tr rfl h
        refine ⟨⟨⟨input.p1, input.p2, m⟩, seg, i⟩ :: tl2, ?_, ?_, ?_, ?_, ?_, ?_⟩
        · rw [htr]; simp
        · rfl
        · rw [hseg]
        · refine ⟨h4, ?_, ?_⟩
          · cases hx : cb2TestOverlap (t.node i).aabb seg with
            | false => exact absurd hx h2
            | true => rfl
          · unfold sepOf
            rw [← hv, ← hav]
            exact le_of_not_lt h3
        · exact Or.inr h5
        · rw [if_pos h6]
          exact hchain
      · -- leaf visited, non-positive nonzero return: nothing changes
        obtain ⟨tl2, htr, hchain⟩ := ih rest m seg _ tr hseg h
        refine ⟨⟨⟨input.p1, input.p2, m⟩, seg, i⟩ :: tl2, ?_, ?_, ?_, ?_, ?_, ?_⟩
        · rw [htr]; simp
        · rfl
        · rw [hseg]
        · refine ⟨h4, ?_, ?_⟩
          · cases hx : cb2TestOverlap (t.node i).aabb seg with
            | false => exact absurd hx h2
            | true => rfl
          · unfold sepOf
            rw [← hv, ← hav]
            exact le_of_not_lt h3
        · exact Or.inr h5
        · rw [if_neg h6]
          exact hchain
      · -- internal node: push children, chain unchanged
        exact ih _ m seg acc tr hseg h

/-- A completed RayCast produces a visit chain starting at the input
max fraction. -/
theorem rayCast_chain (t : cb2DynamicTree) (cb : cb2RayCastInput → Int → ℚ)
    (input : cb2RayCastInput) (fuel : Nat) (tr : List RayVisit)
    (h : t.RayCast cb input fuel = some tr) :
    visitChain t cb input input.maxFraction tr := by
  simp only [cb2DynamicTree.RayCast] at h
  split_ifs at h with hr
  obtain ⟨tl, htr, hchain⟩ :=
    rayCastRun_chain t cb input _ _ rfl rfl fuel [t.m_root] input.maxFraction _ [] tr
      rfl h
  simp only [List.reverse_nil, List.nil_append] at htr
  rw [htr]
  exact hchain

/-- Every entry of a visit chain keeps the original ray endpoints in
its subInput, records the segment box built from its own fraction, and
passed both pruning tests as a leaf. -/
theorem visitChain_mem (t : cb2DynamicTree) (cb : cb2RayCastInput → Int → ℚ)
    (input : cb2RayCastInput) :
    ∀ tl m, visitChain t cb input m tl →
      ∀ e ∈ tl, e.sub.p1 = input.p1 ∧ e.sub.p2 = input.p2 ∧
        e.box = segAABBOf input.p1 input.p2 e.sub.maxFraction ∧ visitOK t input e := by
  intro tl
  induction tl with
  | nil => intro m _ e he; cases he
  | cons f rest ih =>
    intro m hchain e he
    obtain ⟨hsub, hbox, hok, _, htail⟩ := hchain
    rcases List.mem_cons.mp he with he | he
    · subst he
      exact ⟨by rw [hsub], by rw [hsub], by rw [hsub, hbox], hok⟩
    · exact ih _ htail e he

/-- In a visit chain started at a positive fraction, every invocation's
fraction is positive. -/
theorem visitChain_pos (t : cb2DynamicTree) (cb : cb2RayCastInput → Int → ℚ)
    (input : cb2RayCastInput) :
    ∀ tl m, 0 < m → visitChain t cb input m tl →
      ∀ e ∈ tl, 0 < e.sub.maxFraction := by
  intro tl
  induction tl with
  | nil => intro m _ _ e he; cases he
  | cons f rest ih =>
    intro m hm hchain e he
    obtain ⟨hsub, _, _, _, htail⟩ := hchain
    rcases List.mem_cons.mp he with he | he
    · subst he; rw [hsub]; exact hm
    · refine ih _ ?_ htail e he
      split_ifs with hval
      · exact hval
      · exact hm

/-- Positional fraction law of a visit chain: the k-th invocation's
fraction folds the earlier returns over the starting fraction, keeping
the most recent positive one. -/
theorem visitChain_getD_frac (t : cb2DynamicTree) (cb : cb2RayCastInput → Int → ℚ)
    (input : cb2RayCastInput) :
    ∀ tl m, visitChain t cb input m tl →
      ∀ k, k < tl.length →
        (tl.getD k dfltVisit).sub = ⟨input.p1, input.p2,
          List.foldl (fun acc e => if 0 < cb e.sub e.node then cb e.sub e.node else acc)
            m (tl.take k)⟩ := by
  intro tl
  induction tl with
  | nil => intro m _ k hk; cases hk
  | cons f rest ih =>
    intro m hchain k hk
    obtain ⟨hsub, _, _, _, htail⟩ := hchain
    cases k with
    | zero => simpa using hsub
    | succ k =>
      have := ih _ htail k (by simpa using hk)
      simp only [List.getD_cons_succ, List.take_succ_cons, List.foldl_cons]
      rw [this, hsub]

/-- A zero return ends a visit chain: it can only occur at the last
recorded invocation. -/
theorem visitChain_zero_last (t : cb2DynamicTree) (cb : cb2RayCastInput → Int → ℚ)
    (input : cb2RayCastInput) :
    ∀ tl m, visitChain t cb input m tl →
      ∀ k, k < tl.length →
        cb (tl.getD k dfltVisit).sub (tl.getD k dfltVisit).node = 0 →
        k = tl.length - 1 := by
  intro tl
  induction tl with
  | nil => intro m _ k hk; cases hk
  | cons f rest ih =>
    intro m hchain k hk hzero
    obtain ⟨_, _, _, hlast, htail⟩ := hchain
    cases k with
    | zero =>
      rcases hlast with hnil | hne
      · subst hnil; rfl
      · simp only [List.getD_cons_zero] at hzero
        exact absurd hzero hne
    | succ k =>
      have hk' : k < rest.length := by simpa using hk
      have := ih _ htail k hk' (by simpa using hzero)
      have hrest : rest.length ≠ 0 := by omega
      simp only [List.length_cons]
      omega

/-- Consecutive-invocation fraction law of a visit chain: a positive
return becomes the next invocation's fraction, anything else leaves it
unchanged. -/
theorem visitChain_step (t : cb2DynamicTree) (cb : cb2RayCastInput → Int → ℚ)
    (input : cb2RayCastInput) :
    ∀ tl m, visitChain t cb input m tl →
      ∀ k, k + 1 < tl.length →
        (tl.getD (k+1) dfltVisit).sub.maxFraction =
          (if 0 < cb (tl.getD k dfltVisit).sub (tl.getD k dfltVisit).node
           then cb (tl.getD k dfltVisit).sub (tl.getD k dfltVisit).node
           else (tl.getD k dfltVisit).sub.maxFraction) := by
  intro tl
  induction tl with
  | nil => intro m _ k hk; cases hk
  | cons f rest ih =>
    intro m hchain k hk
    obtain ⟨hsub, _, _, _, htail⟩ := hchain
    cases k with
    | zero =>
      have hrest : rest.length ≠ 0 := by
        simp only [List.length_cons] at hk; omega
      cases rest with
      | nil => simp at hrest
      | cons g rest2 =>
        obtain ⟨hsub2, _, _, _, _⟩ := htail
        simp only [List.getD_cons_succ, List.getD_cons_zero]
        rw [hsub2, hsub]
    | succ k =>
      have hk' : k + 1 < rest.length := by simpa using hk
      simpa using ih _ htail k hk'

/-- Claim C8: every callback invocation of a RayCast traversal receives
a subInput whose p1 and p2 are the original input's endpoints unchanged
and whose maxFraction is the current clipped fraction — the most recent
positive value returned by an earlier callback of this traversal, or
the original input.maxFraction when no earlier return was positive. -/
theorem rayCast_subinput_clipped (t : cb2DynamicTree)
    (cb : cb2RayCastInput → Int → ℚ) (input : cb2RayCastInput) (fuel : Nat)
    (tr : List RayVisit) (h : t.RayCast cb input fuel = some tr) :
    ∀ k, k < tr.length →
      (tr.getD k dfltVisit).sub = ⟨input.p1, input.p2,
        clippedFraction input ((tr.take k).map (fun e => cb e.sub e.node))⟩ := by
  intro k hk
  have hchain := rayCast_chain t cb input fuel tr h
  have := visitChain_getD_frac t cb input tr input.maxFraction hchain k hk
  rw [this]
  unfold clippedFraction
  rw [List.foldl_map]

/-- Claim C3: interpretation of the leaf visitor's return value in
RayCast. A zero return terminates the whole traversal at once: it can
only be the last recorded invocation. A positive return becomes the
max fraction of the next invocation (replacing the current one), any
other return leaves it unchanged. And at every invocation the segment
bounding box used for pruning is exactly the box spanning p1 to
p1 + maxFraction * (p2 - p1) for the current fraction, so a positive
return value v shrinks it to span p1 through p1 + v * (p2 - p1). -/
theorem rayCast_return_semantics (t : cb2DynamicTree)
    (cb : cb2RayCastInput → Int → ℚ) (input : cb2RayCastInput) (fuel : Nat)
    (tr : List RayVisit) (h : t.RayCast cb input fuel = some tr) :
    (∀ k, k < tr.length →
      cb (tr.getD k dfltVisit).sub (tr.getD k dfltVisit).node = 0 →
      k = tr.length - 1) ∧
    (∀ k, k + 1 < tr.length →
      (tr.getD (k+1) dfltVisit).sub.maxFraction =
        (if 0 < cb (tr.getD k dfltVisit).sub (tr.getD k dfltVisit).node
         then cb (tr.getD k dfltVisit).sub (tr.getD k dfltVisit).node
         else (tr.getD k dfltVisit).sub.maxFraction)) ∧
    (∀ e ∈ tr, e.box = segAABBOf input.p1 input.p2 e.sub.maxFraction) := by
  have hchain := rayCast_chain t cb input fuel tr h
  refine ⟨visitChain_zero_last t cb input tr input.maxFraction hchain,
    visitChain_step t cb input tr input.maxFraction hchain,
    fun e he => (visitChain_mem t cb input tr input.maxFraction hchain e he).2.2.1⟩

/-- Core geometric step for the ray claims, with both direction
components normalized to be nonnegative: a box whose projection meets
the ray line (the separating-axis inequality) and whose near corner is
within the clipped extent on each axis contains a ray point at a
parametric fraction at most m. The interval bounds are expressed as
products to stay division-free. -/
theorem rayEntryCore (dx dy Lx Hx Ly Hy m : ℚ)
    (hdx : 0 ≤ dx) (hdy : 0 ≤ dy) (hne : ¬(dx = 0 ∧ dy = 0))
    (hx : Lx ≤ Hx) (hy : Ly ≤ Hy) (hm : 0 < m)
    (hsat : |dy * (Lx + Hx) - dx * (Ly + Hy)| ≤ dy * (Hx - Lx) + dx * (Hy - Ly))
    (hovx : Lx ≤ m * dx) (hovy : Ly ≤ m * dy) :
    ∃ u, u ≤ m ∧ (Lx ≤ u * dx ∧ u * dx ≤ Hx) ∧ (Ly ≤ u * dy ∧ u * dy ≤ Hy) := by
  obtain ⟨hs1, hs2⟩ := abs_le.mp hsat
  have hcross1 : dy * Lx ≤ dx * Hy := by nlinarith [hs2]
  have hcross2 : dx * Ly ≤ dy * Hx := by nlinarith [hs1]
  rcases eq_or_lt_of_le hdx with hdx0 | hdx'
  · have hdy' : 0 < dy := by
      rcases eq_or_lt_of_le hdy with h0 | h
      · exact absurd ⟨hdx0.symm, h0.symm⟩ hne
      · exact h
    have hLx : Lx ≤ 0 := by
      have h0 : dy * Lx ≤ dy * 0 := by
        rw [mul_zero]
        calc dy * Lx ≤ dx * Hy := hcross1
          _ = 0 := by rw [← hdx0, zero_mul]
      exact le_of_mul_le_mul_left h0 hdy'
    have hHx : 0 ≤ Hx := by
      have h0 : dy * 0 ≤ dy * Hx := by
        rw [mul_zero]
        calc (0:ℚ) = dx * Ly := by rw [← hdx0, zero_mul]
          _ ≤ dy * Hx := hcross2
      exact le_of_mul_le_mul_left h0 hdy'
    refine ⟨Ly / dy, ?_, ⟨?_, ?_⟩, ⟨?_, ?_⟩⟩
    · rw [div_le_iff₀ hdy']; exact hovy
    · rw [← hdx0, mul_zero]; exact hLx
    · rw [← hdx0, mul_zero]; exact hHx
    · rw [div_mul_cancel₀ _ (ne_of_gt hdy')]
    · rw [div_mul_cancel₀ _ (ne_of_gt hdy')]; exact hy
  · rcases eq_or_lt_of_le hdy with hdy0 | hdy'
    · have hLy : Ly ≤ 0 := by
        have h0 : dx * Ly ≤ dx * 0 := by
          rw [mul_zero]
          calc dx * Ly ≤ dy * Hx := hcross2
            _ = 0 := by rw [← hdy0, zero_mul]
        exact le_of_mul_le_mul_left h0 hdx'
      have hHy : 0 ≤ Hy := by
        have h0 : dx * 0 ≤ dx * Hy := by
          rw [mul_zero]
          calc (0:ℚ) = dy * Lx := by rw [← hdy0, zero_mul]
            _ ≤ dx * Hy := hcross1
        exact le_of_mul_le_mul_left h0 hdx'
      refine ⟨Lx / dx, ?_, ⟨?_, ?_⟩, ⟨?_, ?_⟩⟩
      · rw [div_le_iff₀ hdx']; exact hovx
      · rw [div_mul_cancel₀ _ (ne_of_gt hdx')]
      · rw [div_mul_cancel₀ _ (ne_of_gt hdx')]; exact hx
      · rw [← hdy0, mul_zero]; exact hLy
      · rw [← hdy0, mul_zero]; exact hHy
    · rcases le_total (Lx / dx) (Ly / dy) with hle | hle
      · have hkey : Lx * dy ≤ Ly * dx := by
          have := (div_le_div_iff hdx' hdy').mp hle
          linarith
        refine ⟨Ly / dy, ?_, ⟨?_, ?_⟩, ⟨?_, ?_⟩⟩
        · rw [div_le_iff₀ hdy']; exact hovy
        · rw [div_mul_eq_mul_div, le_div_iff₀ hdy']
          exact hkey
        · rw [div_mul_eq_mul_div, div_le_iff₀ hdy']
          linarith [hcross2, mul_comm Ly dx, mul_comm Hx dy]
        · rw [div_mul_cancel₀ _ (ne_of_gt hdy')]
        · rw [div_mul_cancel₀ _ (ne_of_gt hdy')]; exact hy
      · have hkey : Ly * dx ≤ Lx * dy := by
          have := (div_le_div_iff hdy' hdx').mp hle
          linarith
        refine ⟨Lx / dx, ?_, ⟨?_, ?_⟩, ⟨?_, ?_⟩⟩
        · rw [div_le_iff₀ hdx']; exact hovx
        · rw [div_mul_cancel₀ _ (ne_of_gt hdx')]
        · rw [div_mul_cancel₀ _ (ne_of_gt hdx')]; exact hx
        · rw [div_mul_eq_mul_div, le_div_iff₀ hdx']
          exact hkey
        · rw [div_mul_eq_mul_div, div_le_iff₀ hdx']
          linarith [hcross1, mul_comm Lx dy, mul_comm Hy dx]

/-- Sign-general geometric step: resolves the min/max form of the
segment-box overlap and the absolute values of the separating-axis
inequality into the normalized core lemma, negating an axis when its
direction component is negative. -/
theorem rayEntrySigned (dx dy Lx Hx Ly Hy m : ℚ)
    (hx : Lx ≤ Hx) (hy : Ly ≤ Hy) (hm : 0 < m) (hne : ¬(dx = 0 ∧ dy = 0))
    (hsat : |dy * (Lx + Hx) - dx * (Ly + Hy)| ≤ |dy| * (Hx - Lx) + |dx| * (Hy - Ly))
    (hov1 : min 0 (m * dx) ≤ Hx) (hov2 : Lx ≤ max 0 (m * dx))
    (hov3 : min 0 (m * dy) ≤ Hy) (hov4 : Ly ≤ max 0 (m * dy)) :
    ∃ u, u ≤ m ∧ (Lx ≤ u * dx ∧ u * dx ≤ Hx) ∧ (Ly ≤ u * dy ∧ u * dy ≤ Hy) := by
  rcases le_or_lt 0 dx with hdx | hdx
  · have hmdx : 0 ≤ m * dx := mul_nonneg (le_of_lt hm) hdx
    rw [max_eq_right hmdx] at hov2
    rcases le_or_lt 0 dy with hdy | hdy
    · have hmdy : 0 ≤ m * dy := mul_nonneg (le_of_lt hm) hdy
      rw [max_eq_right hmdy] at hov4
      have hsat' : |dy * (Lx + Hx) - dx * (Ly + Hy)| ≤
          dy * (Hx - Lx) + dx * (Hy - Ly) := by
        rwa [abs_of_nonneg hdy, abs_of_nonneg hdx] at hsat
      exact rayEntryCore dx dy Lx Hx Ly Hy m hdx hdy hne hx hy hm hsat' hov2 hov4
    · have hmdy : m * dy ≤ 0 := le_of_lt (mul_neg_of_pos_of_neg hm hdy)
      rw [min_eq_right hmdy] at hov3
      have hne' : ¬(dx = 0 ∧ -dy = 0) := by
        rintro ⟨-, h2⟩
        exact absurd (by linarith : dy = 0) (ne_of_lt hdy)
      have hsat' : |(-dy) * (Lx + Hx) - dx * ((-Hy) + (-Ly))| ≤
          (-dy) * (Hx - Lx) + dx * ((-Ly) - (-Hy)) := by
        rw [abs_of_nonneg hdx, abs_of_neg hdy] at hsat
        calc |(-dy) * (Lx + Hx) - dx * ((-Hy) + (-Ly))|
            = |-(dy * (Lx + Hx) - dx * (Ly + Hy))| := by apply congrArg; ring
          _ = |dy * (Lx + Hx) - dx * (Ly + Hy)| := abs_neg _
          _ ≤ -dy * (Hx - Lx) + dx * (Hy - Ly) := hsat
          _ = (-dy) * (Hx - Lx) + dx * ((-Ly) - (-Hy)) := by ring
      have hovy' : -Hy ≤ m * (-dy) := by
        have e : m * (-dy) = -(m * dy) := by ring
        linarith [hov3, e]
      obtain ⟨u, hu, hxres, hyres⟩ :=
        rayEntryCore dx (-dy) Lx Hx (-Hy) (-Ly) m hdx (by linarith) hne' hx
          (by linarith) hm hsat' hov2 hovy'
      have e : u * (-dy) = -(u * dy) := by ring
      exact ⟨u, hu, hxres, by linarith [hyres.2, e], by linarith [hyres.1, e]⟩
  · have hmdx : m * dx ≤ 0 := le_of_lt (mul_neg_of_pos_of_neg hm hdx)
    rw [min_eq_right hmdx] at hov1
    rcases le_or_lt 0 dy with hdy | hdy
    · have hmdy : 0 ≤ m * dy := mul_nonneg (le_of_lt hm) hdy
      rw [max_eq_right hmdy] at hov4
      have hne' : ¬(-dx = 0 ∧ dy = 0) := by
        rintro ⟨h1, -⟩
        exact absurd (by linarith : dx = 0) (ne_of_lt hdx)
      have hsat' : |dy * ((-Hx) + (-Lx)) - (-dx) * (Ly + Hy)| ≤
          dy * ((-Lx) - (-Hx)) + (-dx) * (Hy - Ly) := by
        rw [abs_of_nonneg hdy, abs_of_neg hdx] at hsat
        calc |dy * ((-Hx) + (-Lx)) - (-dx) * (Ly + Hy)|
            = |-(dy * (Lx + Hx) - dx * (Ly + Hy))| := by apply congrArg; ring
          _ = |dy * (Lx + Hx) - dx * (Ly + Hy)| := abs_neg _
          _ ≤ dy * (Hx - Lx) + -dx * (Hy - Ly) := hsat
          _ = dy * ((-Lx) - (-Hx)) + (-dx) * (Hy - Ly) := by ring
      have hovx' : -Hx ≤ m * (-dx) := by
        have e : m * (-dx) = -(m * dx) := by ring
        linarith [hov1, e]
      obtain ⟨u, hu, hxres, hyres⟩ :=
        rayEntryCore (-dx) dy (-Hx) (-Lx) Ly Hy m (by linarith) hdy hne'
          (by linarith) hy hm hsat' hovx' hov4
      have e : u * (-dx) = -(u * dx) := by ring
      exact ⟨u, hu, ⟨by linarith [hxres.2, e], by linarith [hxres.1, e]⟩, hyres⟩
    · have hmdy : m * dy ≤ 0 := le_of_lt (mul_neg_of_pos_of_neg hm hdy)
      rw [min_eq_right hmdy] at hov3
      have hne' : ¬(-dx = 0 ∧ -dy = 0) := by
        rintro ⟨h1, -⟩
        exact absurd (by linarith : dx = 0) (ne_of_lt hdx)
      have hsat' : |(-dy) * ((-Hx) + (-Lx)) - (-dx) * ((-Hy) + (-Ly))| ≤
          (-dy) * ((-Lx) - (-Hx)) + (-dx) * ((-Ly) - (-Hy)) := by
        rw [abs_of_neg hdy, abs_of_neg hdx] at hsat
        calc |(-dy) * ((-Hx) + (-Lx)) - (-dx) * ((-Hy) + (-Ly))|
            = |dy * (Lx + Hx) - dx * (Ly + Hy)| := by apply congrArg; ring
          _ ≤ -dy * (Hx - Lx) + -dx * (Hy - Ly) := hsat
          _ = (-dy) * ((-Lx) - (-Hx)) + (-dx) * ((-Ly) - (-Hy)) := by ring
      have hovx' : -Hx ≤ m * (-dx) := by
        have e : m * (-dx) = -(m * dx) := by ring
        linarith [hov1, e]
      have hovy' : -Hy ≤ m * (-dy) := by
        have e : m * (-dy) = -(m * dy) := by ring
        linarith [hov3, e]
      obtain ⟨u, hu, hxres, hyres⟩ :=
        rayEntryCore (-dx) (-dy) (-Hx) (-Lx) (-Hy) (-Ly) m (by linarith)
          (by linarith) hne' (by linarith) (by linarith) hm hsat' hovx' hovy'
      have ex : u * (-dx) = -(u * dx) := by ring
      have ey : u * (-dy) = -(u * dy) := by ring
      exact ⟨u, hu, ⟨by linarith [hxres.2, ex], by linarith [hxres.1, ex]⟩,
        by linarith [hyres.2, ey], by linarith [hyres.1, ey]⟩

/-- Shifting a minimum with zero. -/
theorem add_min_zero (a t : ℚ) : a + min 0 t = min a (a + t) := by
  rcases le_total 0 t with h | h
  · rw [min_eq_left h, min_eq_left (by linarith), add_zero]
  · rw [min_eq_right h, min_eq_right (by linarith)]

/-- Shifting a maximum with zero. -/
theorem add_max_zero (a t : ℚ) : a + max 0 t = max a (a + t) := by
  rcases le_total 0 t with h | h
  · rw [max_eq_right h, max_eq_right (by linarith)]
  · rw [max_eq_left h, max_eq_left (by linarith), add_zero]

/-- Geometric meaning of the two RayCast pruning tests: a well-formed
box that overlaps the segment box of fraction m and is not separated
from the ray line contains a ray point at a parametric fraction at
most m. -/
theorem ray_entry (p1 p2 : Vec2) (m : ℚ) (n : cb2TreeNode)
    (hwfx : n.aabb.lowerBound.x ≤ n.aabb.upperBound.x)
    (hwfy : n.aabb.lowerBound.y ≤ n.aabb.upperBound.y)
    (hm : 0 < m)
    (hne : ¬(p2.x - p1.x = 0 ∧ p2.y - p1.y = 0))
    (hov : cb2TestOverlap n.aabb (segAABBOf p1 p2 m) = true)
    (hsep : raySep (cb2CrossSV 1 (Vec2.sub p2 p1))
      (cb2Abs (cb2CrossSV 1 (Vec2.sub p2 p1))) p1 n ≤ 0) :
    ∃ u : ℚ, u ≤ m ∧ pointInAABB (rayPoint p1 p2 u) n.aabb := by
  rw [cb2TestOverlap_iff] at hov
  obtain ⟨ho1, ho2, ho3, ho4⟩ := hov
  dsimp only [segAABBOf, cb2Min, cb2Max, Vec2.add, Vec2.smul, Vec2.sub]
    at ho1 ho2 ho3 ho4
  dsimp only [raySep, cb2CrossSV, cb2Abs, cb2Dot, Vec2.sub, cb2AABB.GetCenter,
    cb2AABB.GetExtents, Vec2.add, Vec2.smul] at hsep
  simp only [neg_one_mul, one_mul, abs_neg] at hsep
  have habs := sub_nonpos.mp hsep
  obtain ⟨h1, h2⟩ := abs_le.mp habs
  have hsat : |(p2.y - p1.y) * ((n.aabb.lowerBound.x - p1.x) +
        (n.aabb.upperBound.x - p1.x)) -
      (p2.x - p1.x) * ((n.aabb.lowerBound.y - p1.y) +
        (n.aabb.upperBound.y - p1.y))| ≤
      |p2.y - p1.y| * ((n.aabb.upperBound.x - p1.x) -
        (n.aabb.lowerBound.x - p1.x)) +
      |p2.x - p1.x| * ((n.aabb.upperBound.y - p1.y) -
        (n.aabb.lowerBound.y - p1.y)) := by
    rw [abs_le]
    generalize hay : |p2.y - p1.y| = ay at h1 h2 ⊢
    generalize hax : |p2.x - p1.x| = ax at h1 h2 ⊢
    constructor
    · ring_nf
      ring_nf at h1
      linarith
    · ring_nf
      ring_nf at h2
      linarith
  have hov1 : min 0 (m * (p2.x - p1.x)) ≤ n.aabb.upperBound.x - p1.x := by
    rw [← add_min_zero] at ho1
    linarith
  have hov3 : min 0 (m * (p2.y - p1.y)) ≤ n.aabb.upperBound.y - p1.y := by
    rw [← add_min_zero] at ho2
    linarith
  have hov2 : n.aabb.lowerBound.x - p1.x ≤ max 0 (m * (p2.x - p1.x)) := by
    rw [← add_max_zero] at ho3
    linarith
  have hov4 : n.aabb.lowerBound.y - p1.y ≤ max 0 (m * (p2.y - p1.y)) := by
    rw [← add_max_zero] at ho4
    linarith
  obtain ⟨u, hu, ⟨c1, c2⟩, ⟨c3, c4⟩⟩ :=
    rayEntrySigned (p2.x - p1.x) (p2.y - p1.y)
      (n.aabb.lowerBound.x - p1.x) (n.aabb.upperBound.x - p1.x)
      (n.aabb.lowerBound.y - p1.y) (n.aabb.upperBound.y - p1.y) m
      (by linarith) (by linarith) hm hne hsat hov1 hov2 hov3 hov4
  refine ⟨u, hu, ?_, ?_, ?_, ?_⟩ <;>
    dsimp only [rayPoint, pointInAABB, Vec2.add, Vec2.smul, Vec2.sub] <;>
    linarith

/-- Claim C2 (amended): at every callback invocation of a RayCast
traversal over well-formed boxes with a positive initial max fraction,
the visited leaf's fat AABB contains a ray point p1 + u * (p2 - p1)
with u at most that invocation's max fraction — the most recent
positive callback return, or the original input.maxFraction. Hence
after a visitor returns a positive fraction f, no leaf whose nearest
ray point lies beyond the current clipped fraction is visited; the
bound is f itself only until a later callback returns a larger
positive value, which re-expands it. -/
theorem rayCast_visits_within_clipped_fraction (t : cb2DynamicTree)
    (cb : cb2RayCastInput → Int → ℚ) (input : cb2RayCastInput) (fuel : Nat)
    (tr : List RayVisit)
    (hwf : ∀ n ∈ t.m_nodes, n.aabb.lowerBound.x ≤ n.aabb.upperBound.x ∧
      n.aabb.lowerBound.y ≤ n.aabb.upperBound.y)
    (hm : 0 < input.maxFraction)
    (h : t.RayCast cb input fuel = some tr) :
    ∀ k, k < tr.length →
      ∃ u : ℚ, u ≤ (tr.getD k dfltVisit).sub.maxFraction ∧
        pointInAABB (rayPoint input.p1 input.p2 u)
          (t.node (tr.getD k dfltVisit).node).aabb := by
  intro k hk
  have hchain := rayCast_chain t cb input fuel tr h
  have he : tr.getD k dfltVisit ∈ tr := by
    rw [List.getD_eq_get tr dfltVisit hk]
    exact List.get_mem tr k hk
  obtain ⟨hp1, hp2, hbox, hleaf, hovv, hsepv⟩ :=
    visitChain_mem t cb input tr input.maxFraction hchain _ he
  have hpos := visitChain_pos t cb input tr input.maxFraction hm hchain _ he
  have hwfn : (t.node (tr.getD k dfltVisit).node).aabb.lowerBound.x ≤
      (t.node (tr.getD k dfltVisit).node).aabb.upperBound.x ∧
      (t.node (tr.getD k dfltVisit).node).aabb.lowerBound.y ≤
      (t.node (tr.getD k dfltVisit).node).aabb.upperBound.y := by
    unfold cb2DynamicTree.node
    split_ifs with hcond
    · exact hwf _ (List.get_mem _ _ _)
    · exact ⟨le_refl _, le_refl _⟩
  have hr : 0 < (Vec2.sub input.p2 input.p1).lengthSquared := by
    by_contra hcon
    simp only [cb2DynamicTree.RayCast] at h
    rw [if_neg hcon] at h
    cases h
  have hne : ¬(input.p2.x - input.p1.x = 0 ∧ input.p2.y - input.p1.y = 0) := by
    rintro ⟨h1, h2⟩
    unfold Vec2.lengthSquared Vec2.sub at hr
    simp only at hr
    rw [h1, h2] at hr
    norm_num at hr
  rw [hbox] at hovv
  unfold sepOf at hsepv
  exact ray_entry input.p1 input.p2 _ _ hwfn.1 hwfn.2 hpos hne hovv hsepv

/-- One RayCast iteration: a popped null index is skipped. -/
theorem rayCastRun_step_null (t : cb2DynamicTree) (cb : cb2RayCastInput → Int → ℚ)
    (input : cb2RayCastInput) (v abs_v : Vec2) (fuel : Nat) (i : Int)
    (rest : List Int) (m : ℚ) (seg : cb2AABB) (acc : List RayVisit)
    (h1 : i = cb2_nullNode) :
    rayCastRun t cb input v abs_v (fuel+1) (i :: rest) m seg acc =
      rayCastRun t cb input v abs_v fuel rest m seg acc := by
  rw [rayCastRun, if_pos h1]

/-- One RayCast iteration: a node missing the segment box is pruned. -/
theorem rayCastRun_step_prune (t : cb2DynamicTree) (cb : cb2RayCastInput → Int → ℚ)
    (input : cb2RayCastInput) (v abs_v : Vec2) (fuel : Nat) (i : Int)
    (rest : List Int) (m : ℚ) (seg : cb2AABB) (acc : List RayVisit)
    (h1 : i ≠ cb2_nullNode) (h2 : cb2TestOverlap (t.node i).aabb seg = false) :
    rayCastRun t cb input v abs_v (fuel+1) (i :: rest) m seg acc =
      rayCastRun t cb input v abs_v fuel rest m seg acc := by
  rw [rayCastRun, if_neg h1, if_pos h2]

/-- One RayCast iteration: a node separated from the ray line is
pruned. -/
theorem rayCastRun_step_sep (t : cb2DynamicTree) (cb : cb2RayCastInput → Int → ℚ)
    (input : cb2RayCastInput) (v abs_v : Vec2) (fuel : Nat) (i : Int)
    (rest : List Int) (m : ℚ) (seg : cb2AABB) (acc : List RayVisit)
    (h1 : i ≠ cb2_nullNode) (h2 : cb2TestOverlap (t.node i).aabb seg = true)
    (h3 : 0 < raySep v abs_v input.p1 (t.node i)) :
    rayCastRun t cb input v abs_v (fuel+1) (i :: rest) m seg acc =
      rayCastRun t cb input v abs_v fuel rest m seg acc := by
  rw [rayCastRun, if_neg h1, if_neg (by simp [h2]), if_pos h3]

/-- One RayCast iteration: a surviving internal node pushes child1 then
child2. -/
theorem rayCastRun_step_internal (t : cb2DynamicTree)
    (cb : cb2RayCastInput → Int → ℚ) (input : cb2RayCastInput) (v abs_v : Vec2)
    (fuel : Nat) (i : Int) (rest : List Int) (m : ℚ) (seg : cb2AABB)
    (acc : List RayVisit)
    (h1 : i ≠ cb2_nullNode) (h2 : cb2TestOverlap (t.node i).aabb seg = true)
    (h3 : ¬ 0 < raySep v abs_v input.p1 (t.node i))
    (h4 : (t.node i).IsLeaf = false) :
    rayCastRun t cb input v abs_v (fuel+1) (i :: rest) m seg acc =
      rayCastRun t cb input v abs_v fuel
        ((t.node i).child2 :: (t.node i).child1 :: rest) m seg acc := by
  rw [rayCastRun, if_neg h1, if_neg (by simp [h2]), if_neg h3, if_neg (by simp [h4])]

/-- One RayCast iteration: a surviving leaf whose callback returns zero
ends the whole traversal. -/
theorem rayCastRun_step_leaf_zero (t : cb2DynamicTree)
    (cb : cb2RayCastInput → Int → ℚ) (input : cb2RayCastInput) (v abs_v : Vec2)
    (fuel : Nat) (i : Int) (rest : List Int) (m : ℚ) (seg : cb2AABB)
    (acc : List RayVisit) (val : ℚ)
    (h1 : i ≠ cb2_nullNode) (h2 : cb2TestOverlap (t.node i).aabb seg = true)
    (h3 : ¬ 0 < raySep v abs_v input.p1 (t.node i))
    (h4 : (t.node i).IsLeaf = true)
    (hv : cb ⟨input.p1, input.p2, m⟩ i = val) (hval : val = 0) :
    rayCastRun t cb input v abs_v (fuel+1) (i :: rest) m seg acc =
      some (((⟨⟨input.p1, input.p2, m⟩, seg, i⟩ : RayVisit) :: acc)).reverse := by
  rw [rayCastRun, if_neg h1, if_neg (by simp [h2]), if_neg h3, if_pos h4, hv,
    if_pos hval]

/-- One RayCast iteration: a surviving leaf whose callback returns a
positive value replaces the max fraction and rebuilds the segment
box. -/
theorem rayCastRun_step_leaf_pos (t : cb2DynamicTree)
    (cb : cb2RayCastInput → Int → ℚ) (input : cb2RayCastInput) (v abs_v : Vec2)
    (fuel : Nat) (i : Int) (rest : List Int) (m : ℚ) (seg : cb2AABB)
    (acc : List RayVisit) (val : ℚ)
    (h1 : i ≠ cb2_nullNode) (h2 : cb2TestOverlap (t.node i).aabb seg = true)
    (h3 : ¬ 0 < raySep v abs_v input.p1 (t.node i))
    (h4 : (t.node i).IsLeaf = true)
    (hv : cb ⟨input.p1, input.p2, m⟩ i = val) (hval : 0 < val) :
    rayCastRun t cb input v abs_v (fuel+1) (i :: rest) m seg acc =
      rayCastRun t cb input v abs_v fuel rest val
        (segAABBOf input.p1 input.p2 val)
        ((⟨⟨input.p1, input.p2, m⟩, seg, i⟩ : RayVisit) :: acc) := by
  rw [rayCastRun, if_neg h1, if_neg (by simp [h2]), if_neg h3, if_pos h4, hv,
    if_neg (by exact fun h0 => absurd (h0 ▸ hval) (lt_irrefl 0)), if_pos hval]

/-- One RayCast iteration: a surviving leaf whose callback returns a
negative value changes nothing and the traversal continues. -/
theorem rayCastRun_step_leaf_neg (t : cb2DynamicTree)
    (cb : cb2RayCastInput → Int → ℚ) (input : cb2RayCastInput) (v abs_v : Vec2)
    (fuel : Nat) (i : Int) (rest : List Int) (m : ℚ) (seg : cb2AABB)
    (acc : List RayVisit) (val : ℚ)
    (h1 : i ≠ cb2_nullNode) (h2 : cb2TestOverlap (t.node i).aabb seg = true)
    (h3 : ¬ 0 < raySep v abs_v input.p1 (t.node i))
    (h4 : (t.node i).IsLeaf = true)
    (hv : cb ⟨input.p1, input.p2, m⟩ i = val) (hval : val < 0) :
    rayCastRun t cb input v abs_v (fuel+1) (i :: rest) m seg acc =
      rayCastRun t cb input v abs_v fuel rest m seg
        ((⟨⟨input.p1, input.p2, m⟩, seg, i⟩ : RayVisit) :: acc) := by
  rw [rayCastRun, if_neg h1, if_neg (by simp [h2]), if_neg h3, if_pos h4, hv,
    if_neg (ne_of_lt hval), if_neg (not_lt.mpr (le_of_lt hval))]

/-- Concrete evaluation: on the five-node tree, the ray (0,0) to (1,0)
with max fraction 1 and the visitor cxCb visits leaf 3 (return 1/10),
then leaf 4 (return 9/10, re-expanding the clip), then leaf 2. -/
theorem cxTree_rayCast_eval : cxTree.RayCast cxCb cxInput 9 = some
    [ ⟨⟨⟨0, 0⟩, ⟨1, 0⟩, 1⟩, segAABBOf ⟨0, 0⟩ ⟨1, 0⟩ 1, 3⟩,
      ⟨⟨⟨0, 0⟩, ⟨1, 0⟩, 1/10⟩, segAABBOf ⟨0, 0⟩ ⟨1, 0⟩ (1/10), 4⟩,
      ⟨⟨⟨0, 0⟩, ⟨1, 0⟩, 9/10⟩, segAABBOf ⟨0, 0⟩ ⟨1, 0⟩ (9/10), 2⟩ ] := by
  have n0 : cxTree.node 0 = ⟨⟨⟨0, -1/10⟩, ⟨3/5, 1/10⟩⟩, 0, -1, 2, 1, 2⟩ := rfl
  have n1 : cxTree.node 1 = ⟨⟨⟨0, -1/10⟩, ⟨3/50, 1/10⟩⟩, 0, 0, 4, 3, 1⟩ := rfl
  have n2 : cxTree.node 2 = ⟨⟨⟨2/5, -1/10⟩, ⟨3/5, 1/10⟩⟩, 3, 0, -1, -1, 0⟩ := rfl
  have n3 : cxTree.node 3 = ⟨⟨⟨0, -1/10⟩, ⟨1/20, 1/10⟩⟩, 1, 1, -1, -1, 0⟩ := rfl
  have n4 : cxTree.node 4 = ⟨⟨⟨0, -1/10⟩, ⟨3/50, 1/10⟩⟩, 2, 1, -1, -1, 0⟩ := rfl
  simp only [cb2DynamicTree.RayCast]
  rw [if_pos (by norm_num [cxInput, Vec2.sub, Vec2.lengthSquared]),
    show cb2CrossSV 1 (Vec2.sub cxInput.p2 cxInput.p1) = (⟨0, 1⟩ : Vec2) from by
      norm_num [cb2CrossSV, Vec2.sub, cxInput]]
  rw [show cb2Abs ⟨0, 1⟩ = (⟨0, 1⟩ : Vec2) from by norm_num [cb2Abs]]
  rw [show cxTree.m_root = 0 from rfl]
  rw [show (9:Nat) = 8+1 from rfl]
  rw [rayCastRun_step_internal cxTree cxCb cxInput ⟨0, 1⟩ ⟨0, 1⟩ 8 0 []
    cxInput.maxFraction (segAABBOf cxInput.p1 cxInput.p2 cxInput.maxFraction) []
    (by decide)
    (by rw [n0]; norm_num [cb2TestOverlap, segAABBOf, cb2Min, cb2Max, Vec2.add,
      Vec2.smul, Vec2.sub, cxInput, min_def, max_def])
    (by rw [n0]; norm_num [raySep, cb2Dot, Vec2.sub, cb2AABB.GetCenter,
      cb2AABB.GetExtents, Vec2.add, Vec2.smul, cxInput, abs_zero])
    (by rw [n0]; rfl)]
  rw [n0]; dsimp only
  rw [show (8:Nat) = 7+1 from rfl]
  rw [rayCastRun_step_internal cxTree cxCb cxInput ⟨0, 1⟩ ⟨0, 1⟩ 7 1 [2]
    cxInput.maxFraction (segAABBOf cxInput.p1 cxInput.p2 cxInput.maxFraction) []
    (by decide)
    (by rw [n1]; norm_num [cb2TestOverlap, segAABBOf, cb2Min, cb2Max, Vec2.add,
      Vec2.smul, Vec2.sub, cxInput, min_def, max_def])
    (by rw [n1]; norm_num [raySep, cb2Dot, Vec2.sub, cb2AABB.GetCenter,
      cb2AABB.GetExtents, Vec2.add, Vec2.smul, cxInput, abs_zero])
    (by rw [n1]; rfl)]
  rw [n1]; dsimp only
  rw [show (7:Nat) = 6+1 from rfl]
  rw [rayCastRun_step_leaf_pos cxTree cxCb cxInput ⟨0, 1⟩ ⟨0, 1⟩ 6 3 [4, 2]
    cxInput.maxFraction (segAABBOf cxInput.p1 cxInput.p2 cxInput.maxFraction) []
    (1/10)
    (by decide)
    (by rw [n3]; norm_num [cb2TestOverlap, segAABBOf, cb2Min, cb2Max, Vec2.add,
      Vec2.smul, Vec2.sub, cxInput, min_def, max_def])
    (by rw [n3]; norm_num [raySep, cb2Dot, Vec2.sub, cb2AABB.GetCenter,
      cb2AABB.GetExtents, Vec2.add, Vec2.smul, cxInput, abs_zero])
    (by rw [n3]; rfl)
    rfl (by norm_num)]
  rw [show (6:Nat) = 5+1 from rfl]
  rw [rayCastRun_step_leaf_pos cxTree cxCb cxInput ⟨0, 1⟩ ⟨0, 1⟩ 5 4 [2]
    (1/10) (segAABBOf cxInput.p1 cxInput.p2 (1/10))
    [⟨⟨cxInput.p1, cxInput.p2, cxInput.maxFraction⟩,
      segAABBOf cxInput.p1 cxInput.p2 cxInput.maxFraction, 3⟩]
    (9/10)
    (by decide)
    (by rw [n4]; norm_num [cb2TestOverlap, segAABBOf, cb2Min, cb2Max, Vec2.add,
      Vec2.smul, Vec2.sub, cxInput, min_def, max_def])
    (by rw [n4]; norm_num [raySep, cb2Dot, Vec2.sub, cb2AABB.GetCenter,
      cb2AABB.GetExtents, Vec2.add, Vec2.smul, cxInput, abs_zero])
    (by rw [n4]; rfl)
    rfl (by norm_num)]
  rw [show (5:Nat) = 4+1 from rfl]
  rw [rayCastRun_step_leaf_neg cxTree cxCb cxInput ⟨0, 1⟩ ⟨0, 1⟩ 4 2 []
    (9/10) (segAABBOf cxInput.p1 cxInput.p2 (9/10))
    [⟨⟨cxInput.p1, cxInput.p2, 1/10⟩, segAABBOf cxInput.p1 cxInput.p2 (1/10), 4⟩,
     ⟨⟨cxInput.p1, cxInput.p2, cxInput.maxFraction⟩,
      segAABBOf cxInput.p1 cxInput.p2 cxInput.maxFraction, 3⟩]
    (-1)
    (by decide)
    (by rw [n2]; norm_num [cb2TestOverlap, segAABBOf, cb2Min, cb2Max, Vec2.add,
      Vec2.smul, Vec2.sub, cxInput, min_def, max_def])
    (by rw [n2]; norm_num [raySep, cb2Dot, Vec2.sub, cb2AABB.GetCenter,
      cb2AABB.GetExtents, Vec2.add, Vec2.smul, cxInput, abs_zero])
    (by rw [n2]; rfl)
    rfl (by norm_num)]
  rw [rayCastRun]
  rfl

/-- Concrete evaluation: RayCast with a non-positive max fraction (0)
is not rejected — on the five-node tree the traversal proceeds and the
visitor is invoked on leaves 3 and 4 (whose boxes contain the ray
origin). -/
theorem cxTree_rayCast_zero_eval : cxTree.RayCast cbIgnore cxInputZero 9 = some
    [ ⟨⟨⟨0, 0⟩, ⟨1, 0⟩, 0⟩, segAABBOf ⟨0, 0⟩ ⟨1, 0⟩ 0, 3⟩,
      ⟨⟨⟨0, 0⟩, ⟨1, 0⟩, 0⟩, segAABBOf ⟨0, 0⟩ ⟨1, 0⟩ 0, 4⟩ ] := by
  have n0 : cxTree.node 0 = ⟨⟨⟨0, -1/10⟩, ⟨3/5, 1/10⟩⟩, 0, -1, 2, 1, 2⟩ := rfl
  have n1 : cxTree.node 1 = ⟨⟨⟨0, -1/10⟩, ⟨3/50, 1/10⟩⟩, 0, 0, 4, 3, 1⟩ := rfl
  have n2 : cxTree.node 2 = ⟨⟨⟨2/5, -1/10⟩, ⟨3/5, 1/10⟩⟩, 3, 0, -1, -1, 0⟩ := rfl
  have n3 : cxTree.node 3 = ⟨⟨⟨0, -1/10⟩, ⟨1/20, 1/10⟩⟩, 1, 1, -1, -1, 0⟩ := rfl
  have n4 : cxTree.node 4 = ⟨⟨⟨0, -1/10⟩, ⟨3/50, 1/10⟩⟩, 2, 1, -1, -1, 0⟩ := rfl
  simp only [cb2DynamicTree.RayCast]
  rw [if_pos (by norm_num [cxInputZero, Vec2.sub, Vec2.lengthSquared]),
    show cb2CrossSV 1 (Vec2.sub cxInputZero.p2 cxInputZero.p1) = (⟨0, 1⟩ : Vec2)
      from by norm_num [cb2CrossSV, Vec2.sub, cxInputZero]]
  rw [show cb2Abs ⟨0, 1⟩ = (⟨0, 1⟩ : Vec2) from by norm_num [cb2Abs]]
  rw [show cxTree.m_root = 0 from rfl]
  rw [show (9:Nat) = 8+1 from rfl]
  rw [rayCastRun_step_internal cxTree cbIgnore cxInputZero ⟨0, 1⟩ ⟨0, 1⟩ 8 0 []
    cxInputZero.maxFraction
    (segAABBOf cxInputZero.p1 cxInputZero.p2 cxInputZero.maxFraction) []
    (by decide)
    (by rw [n0]; norm_num [cb2TestOverlap, segAABBOf, cb2Min, cb2Max, Vec2.add,
      Vec2.smul, Vec2.sub, cxInputZero, min_def, max_def])
    (by rw [n0]; norm_num [raySep, cb2Dot, Vec2.sub, cb2AABB.GetCenter,
      cb2AABB.GetExtents, Vec2.add, Vec2.smul, cxInputZero, abs_zero])
    (by rw [n0]; rfl)]
  rw [n0]; dsimp only
  rw [show (8:Nat) = 7+1 from rfl]
  rw [rayCastRun_step_internal cxTree cbIgnore cxInputZero ⟨0, 1⟩ ⟨0, 1⟩ 7 1 [2]
    cxInputZero.maxFraction
    (segAABBOf cxInputZero.p1 cxInputZero.p2 cxInputZero.maxFraction) []
    (by decide)
    (by rw [n1]; norm_num [cb2TestOverlap, segAABBOf, cb2Min, cb2Max, Vec2.add,
      Vec2.smul, Vec2.sub, cxInputZero, min_def, max_def])
    (by rw [n1]; norm_num [raySep, cb2Dot, Vec2.sub, cb2AABB.GetCenter,
      cb2AABB.GetExtents, Vec2.add, Vec2.smul, cxInputZero, abs_zero])
    (by rw [n1]; rfl)]
  rw [n1]; dsimp only
  rw [show (7:Nat) = 6+1 from rfl]
  rw [rayCastRun_step_leaf_neg cxTree cbIgnore cxInputZero ⟨0, 1⟩ ⟨0, 1⟩ 6 3 [4, 2]
    cxInputZero.maxFraction
    (segAABBOf cxInputZero.p1 cxInputZero.p2 cxInputZero.maxFraction) []
    (-1)
    (by decide)
    (by rw [n3]; norm_num [cb2TestOverlap, segAABBOf, cb2Min, cb2Max, Vec2.add,
      Vec2.smul, Vec2.sub, cxInputZero, min_def, max_def])
    (by rw [n3]; norm_num [raySep, cb2Dot, Vec2.sub, cb2AABB.GetCenter,
      cb2AABB.GetExtents, Vec2.add, Vec2.smul, cxInputZero, abs_zero])
    (by rw [n3]; rfl)
    rfl (by norm_num)]
  rw [show (6:Nat) = 5+1 from rfl]
  rw [rayCastRun_step_leaf_neg cxTree cbIgnore cxInputZero ⟨0, 1⟩ ⟨0, 1⟩ 5 4 [2]
    cxInputZero.maxFraction
    (segAABBOf cxInputZero.p1 cxInputZero.p2 cxInputZero.maxFraction)
    [⟨⟨cxInputZero.p1, cxInputZero.p2, cxInputZero.maxFraction⟩,
      segAABBOf cxInputZero.p1 cxInputZero.p2 cxInputZero.maxFraction, 3⟩]
    (-1)
    (by decide)
    (by rw [n4]; norm_num [cb2TestOverlap, segAABBOf, cb2Min, cb2Max, Vec2.add,
      Vec2.smul, Vec2.sub, cxInputZero, min_def, max_def])
    (by rw [n4]; norm_num [raySep, cb2Dot, Vec2.sub, cb2AABB.GetCenter,
      cb2AABB.GetExtents, Vec2.add, Vec2.smul, cxInputZero, abs_zero])
    (by rw [n4]; rfl)
    rfl (by norm_num)]
  rw [show (5:Nat) = 4+1 from rfl]
  rw [rayCastRun_step_prune cxTree cbIgnore cxInputZero ⟨0, 1⟩ ⟨0, 1⟩ 4 2 []
    cxInputZero.maxFraction
    (segAABBOf cxInputZero.p1 cxInputZero.p2 cxInputZero.maxFraction)
    [⟨⟨cxInputZero.p1, cxInputZero.p2, cxInputZero.maxFraction⟩,
      segAABBOf cxInputZero.p1 cxInputZero.p2 cxInputZero.maxFraction, 4⟩,
     ⟨⟨cxInputZero.p1, cxInputZero.p2, cxInputZero.maxFraction⟩,
      segAABBOf cxInputZero.p1 cxInputZero.p2 cxInputZero.maxFraction, 3⟩]
    (by decide)
    (by rw [n2]; norm_num [cb2TestOverlap, segAABBOf, cb2Min, cb2Max, Vec2.add,
      Vec2.smul, Vec2.sub, cxInputZero, min_def, max_def])]
  rw [rayCastRun]
  rfl

/-- Counterexample to claim C2 as stated: in the concrete traversal,
the first callback (on leaf 3) returns the positive fraction 1/10, yet
leaf 2 — whose fat box contains no ray point at a fraction within
1/10, its nearest ray point being at fraction 2/5 — is still visited
by a later callback invocation of the same traversal (a second
callback returned the larger fraction 9/10, re-expanding the clip). -/
theorem rayCast_narrowing_counterexample :
    cxTree.RayCast cxCb cxInput 9 = some
      [ ⟨⟨⟨0, 0⟩, ⟨1, 0⟩, 1⟩, segAABBOf ⟨0, 0⟩ ⟨1, 0⟩ 1, 3⟩,
        ⟨⟨⟨0, 0⟩, ⟨1, 0⟩, 1/10⟩, segAABBOf ⟨0, 0⟩ ⟨1, 0⟩ (1/10), 4⟩,
        ⟨⟨⟨0, 0⟩, ⟨1, 0⟩, 9/10⟩, segAABBOf ⟨0, 0⟩ ⟨1, 0⟩ (9/10), 2⟩ ] ∧
    cxCb ⟨⟨0, 0⟩, ⟨1, 0⟩, 1⟩ 3 = 1/10 ∧ (0:ℚ) < 1/10 ∧
    ¬ ∃ u : ℚ, u ≤ 1/10 ∧
      pointInAABB (rayPoint ⟨0, 0⟩ ⟨1, 0⟩ u) (cxTree.node 2).aabb := by
  refine ⟨cxTree_rayCast_eval, rfl, by norm_num, ?_⟩
  rintro ⟨u, hu, hin⟩
  rw [show cxTree.node 2 = ⟨⟨⟨2/5, -1/10⟩, ⟨3/5, 1/10⟩⟩, 3, 0, -1, -1, 0⟩ from rfl]
    at hin
  dsimp only [pointInAABB, rayPoint, Vec2.add, Vec2.smul, Vec2.sub] at hin
  obtain ⟨h1, -, -, -⟩ := hin
  norm_num at h1
  linarith

/-- Witness for the amended C2 on the concrete traversal, at its first
callback invocation. -/
theorem rayCast_visits_within_clipped_fraction_witness :
    ∃ u : ℚ, u ≤ (([ ⟨⟨⟨0, 0⟩, ⟨1, 0⟩, 1⟩, segAABBOf ⟨0, 0⟩ ⟨1, 0⟩ 1, 3⟩,
        ⟨⟨⟨0, 0⟩, ⟨1, 0⟩, 1/10⟩, segAABBOf ⟨0, 0⟩ ⟨1, 0⟩ (1/10), 4⟩,
        ⟨⟨⟨0, 0⟩, ⟨1, 0⟩, 9/10⟩, segAABBOf ⟨0, 0⟩ ⟨1, 0⟩ (9/10), 2⟩ ] : List RayVisit).getD 0
          dfltVisit).sub.maxFraction ∧
      pointInAABB (rayPoint cxInput.p1 cxInput.p2 u)
        (cxTree.node (([ ⟨⟨⟨0, 0⟩, ⟨1, 0⟩, 1⟩, segAABBOf ⟨0, 0⟩ ⟨1, 0⟩ 1, 3⟩,
        ⟨⟨⟨0, 0⟩, ⟨1, 0⟩, 1/10⟩, segAABBOf ⟨0, 0⟩ ⟨1, 0⟩ (1/10), 4⟩,
        ⟨⟨⟨0, 0⟩, ⟨1, 0⟩, 9/10⟩, segAABBOf ⟨0, 0⟩ ⟨1, 0⟩ (9/10), 2⟩ ] : List RayVisit).getD 0
          dfltVisit).node).aabb :=
  rayCast_visits_within_clipped_fraction cxTree cxCb cxInput 9 _
    (by
      intro n hn
      rw [show cxTree.m_nodes =
        [ ⟨⟨⟨0, -1/10⟩, ⟨3/5, 1/10⟩⟩, 0, -1, 2, 1, 2⟩
        , ⟨⟨⟨0, -1/10⟩, ⟨3/50, 1/10⟩⟩, 0, 0, 4, 3, 1⟩
        , ⟨⟨⟨2/5, -1/10⟩, ⟨3/5, 1/10⟩⟩, 3, 0, -1, -1, 0⟩
        , ⟨⟨⟨0, -1/10⟩, ⟨1/20, 1/10⟩⟩, 1, 1, -1, -1, 0⟩
        , ⟨⟨⟨0, -1/10⟩, ⟨3/50, 1/10⟩⟩, 2, 1, -1, -1, 0⟩ ] from rfl] at hn
      simp only [List.mem_cons, List.not_mem_nil, or_false] at hn
      rcases hn with rfl | rfl | rfl | rfl | rfl <;> norm_num)
    (by norm_num [cxInput]) cxTree_rayCast_eval 0 (by norm_num)

/-- Witness for C3 on the concrete traversal: the second invocation's
max fraction equals the first invocation's positive return. -/
theorem rayCast_return_semantics_witness :
    (([ ⟨⟨⟨0, 0⟩, ⟨1, 0⟩, 1⟩, segAABBOf ⟨0, 0⟩ ⟨1, 0⟩ 1, 3⟩,
        ⟨⟨⟨0, 0⟩, ⟨1, 0⟩, 1/10⟩, segAABBOf ⟨0, 0⟩ ⟨1, 0⟩ (1/10), 4⟩,
        ⟨⟨⟨0, 0⟩, ⟨1, 0⟩, 9/10⟩, segAABBOf ⟨0, 0⟩ ⟨1, 0⟩ (9/10), 2⟩ ]
          : List RayVisit).getD (0+1) dfltVisit).sub.maxFraction =
      (if 0 < cxCb (([ ⟨⟨⟨0, 0⟩, ⟨1, 0⟩, 1⟩, segAABBOf ⟨0, 0⟩ ⟨1, 0⟩ 1, 3⟩,
        ⟨⟨⟨0, 0⟩, ⟨1, 0⟩, 1/10⟩, segAABBOf ⟨0, 0⟩ ⟨1, 0⟩ (1/10), 4⟩,
        ⟨⟨⟨0, 0⟩, ⟨1, 0⟩, 9/10⟩, segAABBOf ⟨0, 0⟩ ⟨1, 0⟩ (9/10), 2⟩ ]
          : List RayVisit).getD 0 dfltVisit).sub
          (([ ⟨⟨⟨0, 0⟩, ⟨1, 0⟩, 1⟩, segAABBOf ⟨0, 0⟩ ⟨1, 0⟩ 1, 3⟩,
        ⟨⟨⟨0, 0⟩, ⟨1, 0⟩, 1/10⟩, segAABBOf ⟨0, 0⟩ ⟨1, 0⟩ (1/10), 4⟩,
        ⟨⟨⟨0, 0⟩, ⟨1, 0⟩, 9/10⟩, segAABBOf ⟨0, 0⟩ ⟨1, 0⟩ (9/10), 2⟩ ]
          : List RayVisit).getD 0 dfltVisit).node
       then cxCb (([ ⟨⟨⟨0, 0⟩, ⟨1, 0⟩, 1⟩, segAABBOf ⟨0, 0⟩ ⟨1, 0⟩ 1, 3⟩,
        ⟨⟨⟨0, 0⟩, ⟨1, 0⟩, 1/10⟩, segAABBOf ⟨0, 0⟩ ⟨1, 0⟩ (1/10), 4⟩,
        ⟨⟨⟨0, 0⟩, ⟨1, 0⟩, 9/10⟩, segAABBOf ⟨0, 0⟩ ⟨1, 0⟩ (9/10), 2⟩ ]
          : List RayVisit).getD 0 dfltVisit).sub
          (([ ⟨⟨⟨0, 0⟩, ⟨1, 0⟩, 1⟩, segAABBOf ⟨0, 0⟩ ⟨1, 0⟩ 1, 3⟩,
        ⟨⟨⟨0, 0⟩, ⟨1, 0⟩, 1/10⟩, segAABBOf ⟨0, 0⟩ ⟨1, 0⟩ (1/10), 4⟩,
        ⟨⟨⟨0, 0⟩, ⟨1, 0⟩, 9/10⟩, segAABBOf ⟨0, 0⟩ ⟨1, 0⟩ (9/10), 2⟩ ]
          : List RayVisit).getD 0 dfltVisit).node
       else (([ ⟨⟨⟨0, 0⟩, ⟨1, 0⟩, 1⟩, segAABBOf ⟨0, 0⟩ ⟨1, 0⟩ 1, 3⟩,
        ⟨⟨⟨0, 0⟩, ⟨1, 0⟩, 1/10⟩, segAABBOf ⟨0, 0⟩ ⟨1, 0⟩ (1/10), 4⟩,
        ⟨⟨⟨0, 0⟩, ⟨1, 0⟩, 9/10⟩, segAABBOf ⟨0, 0⟩ ⟨1, 0⟩ (9/10), 2⟩ ]
          : List RayVisit).getD 0 dfltVisit).sub.maxFraction) :=
  (rayCast_return_semantics cxTree cxCb cxInput 9 _ cxTree_rayCast_eval).2.1 0
    (by norm_num)

/-- Witness for C8 on the concrete traversal, at its third callback
invocation. -/
theorem rayCast_subinput_clipped_witness :
    (([ ⟨⟨⟨0, 0⟩, ⟨1, 0⟩, 1⟩, segAABBOf ⟨0, 0⟩ ⟨1, 0⟩ 1, 3⟩,
        ⟨⟨⟨0, 0⟩, ⟨1, 0⟩, 1/10⟩, segAABBOf ⟨0, 0⟩ ⟨1, 0⟩ (1/10), 4⟩,
        ⟨⟨⟨0, 0⟩, ⟨1, 0⟩, 9/10⟩, segAABBOf ⟨0, 0⟩ ⟨1, 0⟩ (9/10), 2⟩ ]
          : List RayVisit).getD 2 dfltVisit).sub =
      ⟨cxInput.p1, cxInput.p2, clippedFraction cxInput
        ((([ ⟨⟨⟨0, 0⟩, ⟨1, 0⟩, 1⟩, segAABBOf ⟨0, 0⟩ ⟨1, 0⟩ 1, 3⟩,
        ⟨⟨⟨0, 0⟩, ⟨1, 0⟩, 1/10⟩, segAABBOf ⟨0, 0⟩ ⟨1, 0⟩ (1/10), 4⟩,
        ⟨⟨⟨0, 0⟩, ⟨1, 0⟩, 9/10⟩, segAABBOf ⟨0, 0⟩ ⟨1, 0⟩ (9/10), 2⟩ ]
          : List RayVisit).take 2).map (fun e => cxCb e.sub e.node))⟩ :=
  rayCast_subinput_clipped cxTree cxCb cxInput 9 _ cxTree_rayCast_eval 2
    (by norm_num)

/-- Claim C6 (amended): RayCast rejects a zero-length ray direction by
an assertion before any traversal work — with p1 = p2 no callback is
ever invoked. (A non-positive max fraction, by contrast, is not
rejected: see the accompanying counterexample.) -/
theorem rayCast_rejects_zero_direction (t : cb2DynamicTree)
    (cb : cb2RayCastInput → Int → ℚ) (input : cb2RayCastInput) (fuel : Nat)
    (h : input.p1 = input.p2) : t.RayCast cb input fuel = none := by
  simp only [cb2DynamicTree.RayCast]
  rw [if_neg]
  intro hpos
  rw [show Vec2.sub input.p2 input.p1 = ⟨0, 0⟩ from by rw [← h]; simp [Vec2.sub]]
    at hpos
  norm_num [Vec2.lengthSquared] at hpos

/-- Witness for the amended C6 at a concrete degenerate input. -/
theorem rayCast_rejects_zero_direction_witness :
    exTree.RayCast cbIgnore exInputDegenerate 4 = none :=
  rayCast_rejects_zero_direction exTree cbIgnore exInputDegenerate 4 rfl

/-- Counterexample to claim C6 as stated: a non-positive max fraction
(here 0) is not rejected by RayCast — the traversal proceeds and the
callback is invoked twice. -/
theorem rayCast_nonpositive_fraction_counterexample :
    cxInputZero.maxFraction ≤ 0 ∧
    cxTree.RayCast cbIgnore cxInputZero 9 = some
      [ ⟨⟨⟨0, 0⟩, ⟨1, 0⟩, 0⟩, segAABBOf ⟨0, 0⟩ ⟨1, 0⟩ 0, 3⟩,
        ⟨⟨⟨0, 0⟩, ⟨1, 0⟩, 0⟩, segAABBOf ⟨0, 0⟩ ⟨1, 0⟩ 0, 4⟩ ] ∧
    ([ (⟨⟨⟨0, 0⟩, ⟨1, 0⟩, 0⟩, segAABBOf ⟨0, 0⟩ ⟨1, 0⟩ 0, 3⟩ : RayVisit),
       ⟨⟨⟨0, 0⟩, ⟨1, 0⟩, 0⟩, segAABBOf ⟨0, 0⟩ ⟨1, 0⟩ 0, 4⟩ ] : List RayVisit) ≠ [] :=
  ⟨by norm_num [cxInputZero], cxTree_rayCast_zero_eval, by simp⟩

/-- Claim C5 (amended): GetUserData and GetFatAABB fail fast
(assertion) exactly for proxy ids outside the pool range
[0, m_nodeCapacity); an id inside the range referring to a freed slot
passes the assertion and silently returns the slot's stored data — the
assert does not inspect liveness. -/
theorem getters_assert_range_only (t : cb2DynamicTree) (proxyId : Int) :
    ((proxyId < 0 ∨ t.m_nodeCapacity ≤ proxyId) →
      t.GetUserData proxyId = none ∧ t.GetFatAABB proxyId = none) ∧
    (0 ≤ proxyId → proxyId < t.m_nodeCapacity →
      t.GetUserData proxyId = some (t.node proxyId).userData ∧
      t.GetFatAABB proxyId = some (t.node proxyId).aabb) := by
  constructor
  · intro h
    constructor
    · unfold cb2DynamicTree.GetUserData
      rw [if_neg]
      rintro ⟨h1, h2⟩
      rcases h with h | h <;> omega
    · unfold cb2DynamicTree.GetFatAABB
      rw [if_neg]
      rintro ⟨h1, h2⟩
      rcases h with h | h <;> omega
  · intro h1 h2
    constructor
    · unfold cb2DynamicTree.GetUserData
      rw [if_pos ⟨h1, h2⟩]
    · unfold cb2DynamicTree.GetFatAABB
      rw [if_pos ⟨h1, h2⟩]

/-- Witness for the amended C5: an out-of-range id asserts, an in-range
id returns the stored data. -/
theorem getters_assert_range_only_witness :
    (freeSlotTree.GetUserData 5 = none ∧ freeSlotTree.GetFatAABB 5 = none) ∧
    (freeSlotTree.GetUserData 1 = some (freeSlotTree.node 1).userData ∧
     freeSlotTree.GetFatAABB 1 = some (freeSlotTree.node 1).aabb) :=
  ⟨(getters_assert_range_only freeSlotTree 5).1 (Or.inr (by decide)),
   (getters_assert_range_only freeSlotTree 1).2 (by decide) (by decide)⟩

/-- Counterexample to claim C5 as stated: slot 1 of the concrete pool
is freed (height -1, head of the free list), yet GetUserData and
GetFatAABB on id 1 pass the assertion and silently return the stale
stored values instead of failing fast. -/
theorem getters_freed_slot_counterexample :
    (freeSlotTree.node 1).height = -1 ∧ freeSlotTree.m_freeList = 1 ∧
    freeSlotTree.GetUserData 1 = some 99 ∧
    freeSlotTree.GetFatAABB 1 = some ⟨⟨7, 7⟩, ⟨8, 8⟩⟩ ∧
    freeSlotTree.GetUserData 1 ≠ none := by
  refine ⟨rfl, rfl, rfl, rfl, ?_⟩
  intro h
  cases h

/-- Claim C10 (amended): cb2Contact::Create for two fixtures of
distinct shape types is argument-order-insensitive — both orders
invoke the same creation function with the same argument list, the
fixture of the registered primary type first; for two fixtures of the
same shape type both orders invoke the same creation function but with
the arguments in call order; for the unregistered pairs (edge-edge,
edge-chain, chain-chain) both orders return NULL. -/
theorem contact_create_symmetry (fA : cb2Fixture) (iA : Int) (fB : cb2Fixture)
    (iB : Int) (al : Int) :
    (fA.shapeType ≠ fB.shapeType →
      cb2Contact.Create fA iA fB iB al = cb2Contact.Create fB iB fA iA al) ∧
    (Option.map CreateInvocation.kind (cb2Contact.Create fA iA fB iB al) =
      Option.map CreateInvocation.kind (cb2Contact.Create fB iB fA iA al)) ∧
    (((fA.shapeType = .edge ∨ fA.shapeType = .chain) ∧
      (fB.shapeType = .edge ∨ fB.shapeType = .chain)) →
      cb2Contact.Create fA iA fB iB al = none ∧
      cb2Contact.Create fB iB fA iA al = none) := by
  obtain ⟨tA, idA⟩ := fA
  obtain ⟨tB, idB⟩ := fB
  cases tA <;> cases tB <;>
    simp [cb2Contact.Create, cb2Contact.InitializeRegisters, cb2Contact.AddType,
      registersZero]

/-- Witness for the amended C10: a polygon-circle pair is
order-insensitive, an edge-edge pair returns NULL. -/
theorem contact_create_symmetry_witness :
    cb2Contact.Create fxPolygonA 1 fxCircleA 0 7 =
      cb2Contact.Create fxCircleA 0 fxPolygonA 1 7 ∧
    cb2Contact.Create fxEdgeA 0 fxEdgeB 1 7 = none :=
  ⟨(contact_create_symmetry fxPolygonA 1 fxCircleA 0 7).1 (by decide),
   ((contact_create_symmetry fxEdgeA 0 fxEdgeB 1 7).2.2 (by decide)).1⟩

/-- Counterexample to claim C10 as stated: for two distinct circle
fixtures, both argument orders invoke the circle-circle creation
function, but with the fixtures in call order — not in one common
order — so the two invocations differ. -/
theorem contact_create_same_type_counterexample :
    cb2Contact.Create fxCircleA 0 fxCircleB 1 7 =
      some ⟨.circleContact, fxCircleA, 0, fxCircleB, 1, 7⟩ ∧
    cb2Contact.Create fxCircleB 1 fxCircleA 0 7 =
      some ⟨.circleContact, fxCircleB, 1, fxCircleA, 0, 7⟩ ∧
    cb2Contact.Create fxCircleA 0 fxCircleB 1 7 ≠
      cb2Contact.Create fxCircleB 1 fxCircleA 0 7 := by decide
